import Mathlib

/-!
Verification of the image-distortion pipeline of `distort_scan.py`.

The pipeline is embedded shallowly:

* machine floats are modelled by exact rationals (`ℚ`); `int(...)` casts use
  Python semantics (truncation toward zero);
* 8-bit pixel channels are `Fin 256`; an image is a width, a height and a
  total pixel function (out-of-range reads are harmless because every
  statement either constrains coordinates or is insensitive to them);
* the process-wide generator of the `random` module is modelled by an
  explicit stream of rationals in `[0, 1)` together with a cursor; every
  drawing primitive (`random.random`, `random.uniform`, `random.randint`,
  `random.choice`) consumes one stream element and advances the cursor, so
  the pipeline is an explicit state-passing function of the generator;
* external imaging-library primitives whose numerics are irrelevant to the
  claims (bicubic rotation with canvas expansion, Gaussian blur, the
  resampling kernel of the perspective transform, and the transcendental
  functions sin/cos) are taken as parameters; primitives whose arithmetic
  the claims do depend on (crop, paste, blend, composite, bilinear resize,
  the enhance operators) are modelled concretely from their documented
  integer semantics.
-/

namespace DistortScan

/-- Python `int(...)` on a rational: truncation toward zero. -/
def pyInt (q : ℚ) : ℤ := if 0 ≤ q then ⌊q⌋ else -⌊-q⌋

/-- Clamp an integer into an 8-bit channel, as `max(0, min(255, z))`. -/
def clampChan (z : ℤ) : Fin 256 := ⟨(min 255 (max 0 z)).toNat, by omega⟩

/-- An RGB pixel: three 8-bit channels. -/
abbrev RGB := Fin 256 × Fin 256 × Fin 256

/-- A decoded raster image: dimensions plus a total pixel function. -/
structure Image where
  width : ℕ
  height : ℕ
  pix : ℕ → ℕ → RGB

/-- A single-band (mode `L`) image. -/
structure GrayImage where
  width : ℕ
  height : ℕ
  pix : ℕ → ℕ → Fin 256

theorem Image.ext_pix {a b : Image} (hw : a.width = b.width)
    (hh : a.height = b.height) (hp : ∀ x y, a.pix x y = b.pix x y) : a = b := by
  cases a
  cases b
  simp only [Image.mk.injEq]
  exact ⟨hw, hh, funext fun x => funext fun y => hp x y⟩

/-- Opaque white, the fill colour used throughout the pipeline. -/
def white : RGB := (255, 255, 255)

/-! ## The pseudo-random source

Model of the process-wide generator of the Python `random` module: a stream
of rationals in `[0, 1)` plus a cursor.  Only determinism (the draws are a
function of the generator state) matters for the claims, not the
distribution of the draws. -/

structure RNG where
  stream : ℕ → ℚ
  pos : ℕ
  hstream : ∀ n, 0 ≤ stream n ∧ stream n < 1

/-- Draw one raw value in `[0,1)`: model of `random.random()`. -/
def randomQ (g : RNG) : ℚ × RNG :=
  (g.stream g.pos, ⟨g.stream, g.pos + 1, g.hstream⟩)

/-- Model of `random.uniform(a, b) = a + (b - a) * random()`. -/
def uniformQ (a b : ℚ) (g : RNG) : ℚ × RNG :=
  let p := randomQ g
  (a + p.1 * (b - a), p.2)

/-- Model of `random.randint(a, b)`: uniform on the inclusive range. -/
def randintQ (a b : ℤ) (g : RNG) : ℤ × RNG :=
  let p := randomQ g
  (a + ⌊p.1 * ((b : ℚ) - a + 1)⌋, p.2)

/-- Model of `random.choice([-1, 1])`. -/
def choicePM (g : RNG) : ℚ × RNG :=
  let p := randomQ g
  (if p.1 < 1/2 then -1 else 1, p.2)

/-- A linear-congruential word stream standing in for the Mersenne Twister
of the standard library: the claims use only that it is a deterministic
function of the seed. -/
def lcgStep (x : ℕ) : ℕ := (1664525 * x + 1013904223) % 4294967296

def lcgWord (s n : ℕ) : ℕ := lcgStep^[n + 1] s

/-- Seeding the shared generator: model of `random.seed(s)`. -/
def seedRNG (s : ℕ) : RNG where
  stream := fun n => (lcgWord s n : ℚ) / 4294967296
  pos := 0
  hstream := by
    intro n
    constructor
    · positivity
    · rw [div_lt_one (by norm_num)]
      have h : lcgWord s n < 4294967296 := by
        unfold lcgWord
        rw [Function.iterate_succ_apply']
        exact Nat.mod_lt _ (by norm_num)
      exact_mod_cast h

/-! ## Intensity presets and parameter sampling (`INTENSITY_PRESETS`,
`randomize_params`) -/

inductive Intensity
  | low
  | medium
  | high
deriving DecidableEq

/-- One preset row of `INTENSITY_PRESETS`. -/
structure PresetRanges where
  rot : ℚ × ℚ
  noise_opacity : ℚ × ℚ
  brightness : ℚ × ℚ
  contrast : ℚ × ℚ
  perspective : ℚ × ℚ
  vignette_strength : ℚ × ℚ
  regional_blur_prob : ℚ
  wrinkle_prob : ℚ
  wrinkle_count : ℤ × ℤ
  wrinkle_amplitude : ℚ × ℚ

/-- The `INTENSITY_PRESETS` table. -/
def INTENSITY_PRESETS : Intensity → PresetRanges
  | .low =>
    { rot := (2/10, 7/10), noise_opacity := (2/100, 5/100),
      brightness := (97/100, 103/100), contrast := (97/100, 103/100),
      perspective := (1/1000, 3/1000), vignette_strength := (5/100, 12/100),
      regional_blur_prob := 15/100, wrinkle_prob := 10/100,
      wrinkle_count := (1, 2), wrinkle_amplitude := (1, 3) }
  | .medium =>
    { rot := (5/10, 15/10), noise_opacity := (4/100, 10/100),
      brightness := (93/100, 107/100), contrast := (93/100, 107/100),
      perspective := (3/1000, 8/1000), vignette_strength := (10/100, 25/100),
      regional_blur_prob := 30/100, wrinkle_prob := 25/100,
      wrinkle_count := (1, 3), wrinkle_amplitude := (2, 5) }
  | .high =>
    { rot := (1, 25/10), noise_opacity := (8/100, 18/100),
      brightness := (88/100, 112/100), contrast := (88/100, 112/100),
      perspective := (8/1000, 15/1000), vignette_strength := (20/100, 40/100),
      regional_blur_prob := 50/100, wrinkle_prob := 45/100,
      wrinkle_count := (2, 4), wrinkle_amplitude := (4, 8) }

/-- A fully resolved parameter set for one page. -/
structure Params where
  rotation_angle : ℚ
  noise_opacity : ℚ
  brightness : ℚ
  contrast : ℚ
  perspective_magnitude : ℚ
  vignette_strength : ℚ
  vignette_radius : ℚ
  regional_blur_prob : ℚ
  regional_blur_radius : ℚ
  regional_blur_fraction : ℚ
  wrinkle_prob : ℚ
  wrinkle_count : ℤ
  wrinkle_amplitude : ℚ

/-- Model of `randomize_params`: draw the per-page parameters, in source order. -/
def randomize_params (preset : Intensity) (g : RNG) : Params × RNG :=
  let p := INTENSITY_PRESETS preset
  let d1 := uniformQ p.rot.1 p.rot.2 g
  let d2 := choicePM d1.2
  let d3 := uniformQ p.noise_opacity.1 p.noise_opacity.2 d2.2
  let d4 := uniformQ p.brightness.1 p.brightness.2 d3.2
  let d5 := uniformQ p.contrast.1 p.contrast.2 d4.2
  let d6 := uniformQ p.perspective.1 p.perspective.2 d5.2
  let d7 := uniformQ p.vignette_strength.1 p.vignette_strength.2 d6.2
  let d8 := uniformQ (7/10) (9/10) d7.2
  let d9 := uniformQ (15/10) 3 d8.2
  let d10 := uniformQ (5/100) (15/100) d9.2
  let d11 := randintQ p.wrinkle_count.1 p.wrinkle_count.2 d10.2
  let d12 := uniformQ p.wrinkle_amplitude.1 p.wrinkle_amplitude.2 d11.2
  ({ rotation_angle := d1.1 * d2.1
    , noise_opacity := d3.1
    , brightness := d4.1
    , contrast := d5.1
    , perspective_magnitude := d6.1
    , vignette_strength := d7.1
    , vignette_radius := d8.1
    , regional_blur_prob := p.regional_blur_prob
    , regional_blur_radius := d9.1
    , regional_blur_fraction := d10.1
    , wrinkle_prob := p.wrinkle_prob
    , wrinkle_count := d11.1
    , wrinkle_amplitude := d12.1 }, d12.2)

/-! ## Library image primitives used by the pipeline -/

/-- Model of `Image.crop(box)`: always returns an image of the box size,
reading the source inside its bounds and black (zero) padding outside. -/
def Image.crop (img : Image) (l t r b : ℤ) : Image where
  width := (r - l).toNat
  height := (b - t).toNat
  pix := fun x y =>
    let sx := l + x
    let sy := t + y
    if 0 ≤ sx ∧ sx < img.width ∧ 0 ≤ sy ∧ sy < img.height then
      img.pix sx.toNat sy.toNat
    else (0, 0, 0)

/-- Model of in-place `Image.paste(over, (ox, oy))`: the base image keeps its
dimensions; rows and columns covered by the pasted image take its pixels. -/
def Image.paste (base over : Image) (ox oy : ℤ) : Image where
  width := base.width
  height := base.height
  pix := fun x y =>
    if ox ≤ (x : ℤ) ∧ (x : ℤ) < ox + over.width ∧
        oy ≤ (y : ℤ) ∧ (y : ℤ) < oy + over.height then
      over.pix ((x : ℤ) - ox).toNat ((y : ℤ) - oy).toNat
    else base.pix x y

/-- One channel of `Image.blend(im1, im2, alpha)`: float interpolation
`im1 + alpha * (im2 - im1)`, then C truncation to int and clipping. -/
def blendChan (a b : Fin 256) (alpha : ℚ) : Fin 256 :=
  clampChan (pyInt ((a : ℚ) + alpha * ((b : ℚ) - (a : ℚ))))

/-- Model of `Image.blend(im1, im2, alpha)` (requires equal sizes in the
library; dimensions are those of the first operand). -/
def blendImages (im1 im2 : Image) (alpha : ℚ) : Image where
  width := im1.width
  height := im1.height
  pix := fun x y =>
    let p := im1.pix x y
    let q := im2.pix x y
    (blendChan p.1 q.1 alpha, blendChan p.2.1 q.2.1 alpha,
      blendChan p.2.2 q.2.2 alpha)

/-- The library's `MULDIV255` fixed-point kernel:
`t = a * b + 128; ((t >> 8) + t) >> 8`. -/
def muldiv255 (a b : ℕ) : ℕ := ((a * b + 128) / 256 + (a * b + 128)) / 256

/-- One channel of mask compositing: weight `m` for the top image,
`255 - m` for the bottom one. -/
def maskChan (top bottom : Fin 256) (m : ℕ) : Fin 256 :=
  ⟨min 255 (muldiv255 top m + muldiv255 bottom (255 - m)), by omega⟩

/-- Model of `Image.composite(im1, im2, mask)`: mask value 255 selects
`im1`, 0 selects `im2`. -/
def compositeMask (im1 im2 : Image) (mask : GrayImage) : Image where
  width := im1.width
  height := im1.height
  pix := fun x y =>
    let p := im1.pix x y
    let q := im2.pix x y
    let m := (mask.pix x y : ℕ)
    (maskChan p.1 q.1 m, maskChan p.2.1 q.2.1 m, maskChan p.2.2 q.2.2 m)

/-- Model of `Image.new('L', (w, h))` followed by `putdata(l)`: row-major
data, clamped into a channel, zero outside the provided data. -/
def grayPutdata (w h : ℕ) (l : List ℤ) : GrayImage where
  width := w
  height := h
  pix := fun x y => clampChan (l.getD (y * w + x) 0)

/-- Clamp a rational coordinate into `[lo, hi]`. -/
def clampQ (lo hi q : ℚ) : ℚ := max lo (min hi q)

/-- Bilinear resampling model of `GrayImage.resize((W, H), BILINEAR)`:
source position of an output pixel centre, clamped to the source bounds,
then a convex combination of the four neighbouring source pixels, rounded
to the nearest channel value. -/
def resizeGray (src : GrayImage) (W H : ℕ) : GrayImage where
  width := W
  height := H
  pix := fun x y =>
    let sx := clampQ 0 ((src.width : ℚ) - 1)
      (((x : ℚ) + 1/2) * src.width / W - 1/2)
    let sy := clampQ 0 ((src.height : ℚ) - 1)
      (((y : ℚ) + 1/2) * src.height / H - 1/2)
    let x0 := ⌊sx⌋.toNat
    let y0 := ⌊sy⌋.toNat
    let x1 := min (x0 + 1) (src.width - 1)
    let y1 := min (y0 + 1) (src.height - 1)
    let fx := sx - x0
    let fy := sy - y0
    let v : ℚ :=
      (src.pix x0 y0 : ℚ) * (1 - fx) * (1 - fy) +
      (src.pix x1 y0 : ℚ) * fx * (1 - fy) +
      (src.pix x0 y1 : ℚ) * (1 - fx) * fy +
      (src.pix x1 y1 : ℚ) * fx * fy
    clampChan (pyInt (v + 1/2))

/-- Model of `Image.merge('RGB', [g, g, g])`. -/
def mergeRGB (gi : GrayImage) : Image where
  width := gi.width
  height := gi.height
  pix := fun x y => (gi.pix x y, gi.pix x y, gi.pix x y)

/-- Solid-colour RGB image: model of `Image.new('RGB', (w, h), c)`. -/
def solidImage (w h : ℕ) (c : RGB) : Image where
  width := w
  height := h
  pix := fun _ _ => c

/-! ## `find_perspective_coeffs`: pure 8x8 Gaussian elimination -/

/-- The near-singular pivot epsilon of the solver (`1e-10`). -/
def geEps : ℚ := 1 / 10000000000

/-- Entry access `A[r][j]` with out-of-range reads defaulting to zero. -/
def ent (A : List (List ℚ)) (r j : ℕ) : ℚ := (A.getD r []).getD j 0

/-- The rows appended for each `(x, y), (X, Y)` of `zip(dst, src)`. -/
def mkRows : List ((ℚ × ℚ) × (ℚ × ℚ)) → List (List ℚ)
  | [] => []
  | ((x, y), (X, Y)) :: rest =>
      [x, y, 1, 0, 0, 0, -X * x, -X * y, X] ::
      [0, 0, 0, x, y, 1, -Y * x, -Y * y, Y] :: mkRows rest

/-- The mutable state of the elimination: `A` (8x8) and `B` (length 8). -/
structure GEState where
  A : List (List ℚ)
  B : List ℚ

/-- Build the system: `A = [row[:8] ...]`, `B = [row[8] ...]`. -/
def initGE (src dst : List (ℚ × ℚ)) : GEState :=
  let matrix := mkRows (dst.zip src)
  { A := matrix.map fun row => row.take 8
  , B := matrix.map fun row => row.getD 8 0 }

/-- Partial pivoting: the row of maximal `|A[row][col]|` among
`row = col .. 7`, scanning `col+1 .. 7` and replacing on strict increase. -/
def pivotSearch (A : List (List ℚ)) (col : ℕ) : ℕ :=
  ((List.range' (col + 1) (8 - (col + 1))).foldl
    (fun acc row => if |ent A row col| > acc.2 then (row, |ent A row col|) else acc)
    (col, |ent A col col|)).1

/-- Swap rows `i` and `j` of the system. -/
def swapGE (st : GEState) (i j : ℕ) : GEState where
  A := (st.A.set i (st.A.getD j [])).set j (st.A.getD i [])
  B := (st.B.set i (st.B.getD j 0)).set j (st.B.getD i 0)

/-- The row update of the inner elimination loop: for `j = col .. 7`,
`row[j] -= factor * pivotRow[j]`. -/
def elimRowA (pivRow : List ℚ) (factor : ℚ) (col : ℕ) (row : List ℚ) : List ℚ :=
  (List.range 8).map fun j =>
    if col ≤ j then row.getD j 0 - factor * pivRow.getD j 0 else row.getD j 0

/-- Eliminate column `col` below the pivot row, with
`factor = A[row][col] / pivot` read before the row is updated. -/
def elimBelow (st : GEState) (col : ℕ) : GEState :=
  let pivot := ent st.A col col
  { A := (List.range 8).map fun r =>
      if col < r then
        elimRowA (st.A.getD col []) (ent st.A r col / pivot) col (st.A.getD r [])
      else st.A.getD r []
  , B := (List.range 8).map fun r =>
      if col < r then st.B.getD r 0 - (ent st.A r col / pivot) * st.B.getD col 0
      else st.B.getD r 0 }

/-- One column of the forward pass: pivot search, swap, and either the
epsilon skip (`continue`) or the elimination of the column. -/
def stepCol (st : GEState) (col : ℕ) : GEState :=
  let st1 := swapGE st col (pivotSearch st.A col)
  if |ent st1.A col col| < geEps then st1 else elimBelow st1 col

/-- The forward pass over columns `0 .. k-1` in source order. -/
def forwardUpTo (st : GEState) : ℕ → GEState
  | 0 => st
  | k + 1 => stepCol (forwardUpTo st k) k

/-- One step of back substitution at row `i`:
`s = B[i] - sum A[i][j] * coeffs[j]` over `j = i+1 .. 7`, then the epsilon
guard zeroing the coefficient of a near-singular diagonal. -/
def backSubStep (st : GEState) (c : List ℚ) (i : ℕ) : List ℚ :=
  let s := st.B.getD i 0 - ∑ j ∈ Finset.Ico (i + 1) 8, ent st.A i j * c.getD j 0
  c.set i (if |ent st.A i i| < geEps then 0 else s / ent st.A i i)

/-- Back substitution processing rows `7, 6, ..., 8-k` over the initial
`coeffs = [0.0] * 8`. -/
def backSubUpTo (st : GEState) : ℕ → List ℚ
  | 0 => List.replicate 8 0
  | k + 1 => backSubStep st (backSubUpTo st k) (7 - k)

/-- Model of `find_perspective_coeffs(src, dst)`. -/
def find_perspective_coeffs (src dst : List (ℚ × ℚ)) : List ℚ :=
  backSubUpTo (forwardUpTo (initGE src dst) 8) 8

/-! ### The failure-aware mirror of the solver

Same algorithm, but every division is guarded: a step returns `none`
exactly when Python would raise `ZeroDivisionError`, i.e. when a division
by exactly zero is reached.  The epsilon guards of the source make that
unreachable, which is the content of the totality claim. -/

/-- One forward column with explicit failure on division by exact zero. -/
def stepColChecked (st : GEState) (col : ℕ) : Option GEState :=
  let st1 := swapGE st col (pivotSearch st.A col)
  if |ent st1.A col col| < geEps then some st1
  else if ent st1.A col col = 0 then none
  else some (elimBelow st1 col)

/-- The checked forward pass. -/
def forwardChecked (st : GEState) : ℕ → Option GEState
  | 0 => some st
  | k + 1 => (forwardChecked st k).bind fun s => stepColChecked s k

/-- One checked back-substitution step. -/
def backSubStepChecked (st : GEState) (c : List ℚ) (i : ℕ) : Option (List ℚ) :=
  let s := st.B.getD i 0 - ∑ j ∈ Finset.Ico (i + 1) 8, ent st.A i j * c.getD j 0
  if |ent st.A i i| < geEps then some (c.set i 0)
  else if ent st.A i i = 0 then none
  else some (c.set i (s / ent st.A i i))

/-- The checked back substitution. -/
def backSubChecked (st : GEState) : ℕ → Option (List ℚ)
  | 0 => some (List.replicate 8 0)
  | k + 1 => (backSubChecked st k).bind fun c => backSubStepChecked st c (7 - k)

/-- The checked solver: `none` iff a division by exact zero is reached. -/
def findPerspectiveCoeffsChecked (src dst : List (ℚ × ℚ)) : Option (List ℚ) :=
  (forwardChecked (initGE src dst) 8).bind fun st => backSubChecked st 8

/-! ## The geometric stages -/

/-- Model of `apply_rotation`: rotate via the external library (expanded canvas,
white fill), then centre-crop back to the original size.  `rotateE` is the
external `Image.rotate(angle, BICUBIC, expand=True, fillcolor)` primitive;
`//` is Python floor division. -/
def apply_rotation (rotateE : Image → ℚ → RGB → Image) (img : Image)
    (angle : ℚ) (fill : RGB) : Image :=
  let w := img.width
  let h := img.height
  let rotated := rotateE img angle fill
  let left := ((rotated.width : ℤ) - w).fdiv 2
  let top := ((rotated.height : ℤ) - h).fdiv 2
  rotated.crop left top (left + w) (top + h)

/-- The backward homography of `Image.transform(PERSPECTIVE)`:
`(x, y) -> ((a x + b y + c) / (g x + h y + 1), (d x + e y + f) / (g x + h y + 1))`. -/
def perspMap (coeffs : List ℚ) (x y : ℚ) : ℚ × ℚ :=
  let a := coeffs.getD 0 0
  let b := coeffs.getD 1 0
  let c := coeffs.getD 2 0
  let d := coeffs.getD 3 0
  let e := coeffs.getD 4 0
  let f := coeffs.getD 5 0
  let gg := coeffs.getD 6 0
  let hh := coeffs.getD 7 0
  let den := gg * x + hh * y + 1
  ((a * x + b * y + c) / den, (d * x + e * y + f) / den)

/-- Model of `Image.transform(size, PERSPECTIVE, coeffs, BICUBIC, fillcolor)`:
each output pixel is backward-mapped; in-bounds source locations are
resampled by the external kernel `sample`, out-of-bounds ones take the fill
colour. -/
def transformPersp (img : Image) (coeffs : List ℚ)
    (sample : Image → ℚ → ℚ → RGB) (fill : RGB) : Image where
  width := img.width
  height := img.height
  pix := fun x y =>
    let p := perspMap coeffs x y
    if 0 ≤ p.1 ∧ p.1 ≤ (img.width : ℚ) - 1 ∧ 0 ≤ p.2 ∧ p.2 ≤ (img.height : ℚ) - 1
    then sample img p.1 p.2
    else fill

/-- Model of `apply_perspective_warp`: displace the four corners inward by random
offsets bounded by `magnitude * w` and `magnitude * h`, solve for the
coefficients, and warp. -/
def apply_perspective_warp (sample : Image → ℚ → ℚ → RGB) (img : Image)
    (magnitude : ℚ) (g : RNG) : Image × RNG :=
  let w := img.width
  let h := img.height
  let max_dx := (w : ℚ) * magnitude
  let max_dy := (h : ℚ) * magnitude
  let u1 := uniformQ 0 max_dx g
  let u2 := uniformQ 0 max_dy u1.2
  let u3 := uniformQ 0 max_dx u2.2
  let u4 := uniformQ 0 max_dy u3.2
  let u5 := uniformQ 0 max_dx u4.2
  let u6 := uniformQ 0 max_dy u5.2
  let u7 := uniformQ 0 max_dx u6.2
  let u8 := uniformQ 0 max_dy u7.2
  let src : List (ℚ × ℚ) := [(0, 0), ((w : ℚ), 0), ((w : ℚ), (h : ℚ)), (0, (h : ℚ))]
  let dst : List (ℚ × ℚ) := [(u1.1, u2.1), ((w : ℚ) - u3.1, u4.1),
    ((w : ℚ) - u5.1, (h : ℚ) - u6.1), (u7.1, (h : ℚ) - u8.1)]
  let coeffs := find_perspective_coeffs src dst
  (transformPersp img coeffs sample white, u8.2)

/-! ## The photometric stages -/

/-- Width of the quarter-resolution noise field: `max(1, w // 4)`. -/
def noiseSmallW (w : ℕ) : ℕ := max 1 (w / 4)

/-- Height of the quarter-resolution noise field: `max(1, h // 4)`. -/
def noiseSmallH (h : ℕ) : ℕ := max 1 (h / 4)

/-- The list comprehension `[random.randint(0, 255) for _ in range(n)]`. -/
def drawNoiseList : ℕ → RNG → List ℤ × RNG
  | 0, g => ([], g)
  | n + 1, g =>
    let d := randintQ 0 255 g
    let rest := drawNoiseList n d.2
    (d.1 :: rest.1, rest.2)

/-- Model of `apply_noise`: quarter-resolution uniform gray noise, bilinear upscale,
grayscale merge, then alpha blend at the given opacity. -/
def apply_noise (img : Image) (opacity : ℚ) (g : RNG) : Image × RNG :=
  let w := img.width
  let h := img.height
  let sw := noiseSmallW w
  let sh := noiseSmallH h
  let d := drawNoiseList (sw * sh) g
  let noise_small := grayPutdata sw sh d.1
  let noise_full := resizeGray noise_small w h
  let noise_rgb := mergeRGB noise_full
  (blendImages img noise_rgb opacity, d.2)

/-- The library's RGB-to-luminance conversion used by `ImageStat` on an
`L`-converted image: `(19595 R + 38470 G + 7471 B + 32768) >> 16`. -/
def grayL (p : RGB) : ℕ :=
  ((p.1 : ℕ) * 19595 + (p.2.1 : ℕ) * 38470 + (p.2.2 : ℕ) * 7471 + 32768) / 65536

/-- Mean luminance of the image (`ImageStat.Stat(image.convert('L')).mean`). -/
def meanL (img : Image) : ℚ :=
  (∑ y ∈ Finset.range img.height, ∑ x ∈ Finset.range img.width,
      (grayL (img.pix x y) : ℚ)) / ((img.width : ℚ) * img.height)

/-- The degenerate image of `ImageEnhance.Contrast`: a solid gray at
`int(mean + 0.5)`. -/
def contrastDegenerate (img : Image) : Image :=
  let m := clampChan (pyInt (meanL img + 1/2))
  solidImage img.width img.height (m, m, m)

/-- Model of `ImageEnhance.Brightness(image).enhance(factor)`: blend of the black
degenerate image toward the image with weight `factor`. -/
def enhanceBrightness (img : Image) (factor : ℚ) : Image :=
  blendImages (solidImage img.width img.height (0, 0, 0)) img factor

/-- Model of `ImageEnhance.Contrast(image).enhance(factor)`: blend of the mean-gray
degenerate image toward the image with weight `factor`. -/
def enhanceContrast (img : Image) (factor : ℚ) : Image :=
  blendImages (contrastDegenerate img) img factor

/-- Model of `apply_brightness_contrast`: brightness enhancement then contrast
enhancement. -/
def apply_brightness_contrast (img : Image) (b c : ℚ) : Image :=
  enhanceContrast (enhanceBrightness img b) c

/-- Rational stand-in for `math.sqrt` (Mathlib's `Rat.sqrt`); no proved
claim depends on its accuracy, only on its totality. -/
def sqrtQ (q : ℚ) : ℚ := Rat.sqrt q

/-- Width of the eighth-resolution vignette mask: `max(1, w // 8)`. -/
def vigMaskW (w : ℕ) : ℕ := max 1 (w / 8)

/-- Height of the eighth-resolution vignette mask: `max(1, h // 8)`. -/
def vigMaskH (h : ℕ) : ℕ := max 1 (h / 8)

/-- The mask centre abscissa `cx = sw / 2` (true division). -/
def vigCx (w : ℕ) : ℚ := (vigMaskW w : ℚ) / 2

/-- The mask centre ordinate `cy = sh / 2` (true division). -/
def vigCy (h : ℕ) : ℚ := (vigMaskH h : ℚ) / 2

/-- One mask pixel of the vignette: guarded normalised centre distance,
linear ramp beyond `radius_factor` up to the corner distance `1.4142`,
clamped to `[0, 1]`, darkening by `strength * t`. -/
def vigMaskVal (strength radius_factor cx cy : ℚ) (x y : ℕ) : ℤ :=
  let dx := if 0 < cx then ((x : ℚ) - cx) / cx else 0
  let dy := if 0 < cy then ((y : ℚ) - cy) / cy else 0
  let dist := sqrtQ (dx * dx + dy * dy)
  let t0 := max 0 ((dist - radius_factor) / (14142/10000 - radius_factor))
  let t := min 1 t0
  pyInt (255 * (1 - strength * t))

/-- The row-major mask data list built by the nested `for y / for x` loops. -/
def vigPixels (strength radius_factor : ℚ) (sw sh : ℕ) : List ℤ :=
  (List.range sh).flatMap fun y => (List.range sw).map fun x =>
    vigMaskVal strength radius_factor ((sw : ℚ) / 2) ((sh : ℚ) / 2) x y

/-- Model of `apply_vignette_fast`: eighth-resolution mask, bilinear upscale, and
composite of the image over black through the mask. -/
def apply_vignette_fast (img : Image) (strength radius_factor : ℚ) : Image :=
  let w := img.width
  let h := img.height
  let sw := vigMaskW w
  let sh := vigMaskH h
  let mask_small := grayPutdata sw sh (vigPixels strength radius_factor sw sh)
  let mask := resizeGray mask_small w h
  let dark := solidImage w h (0, 0, 0)
  compositeMask img dark mask

/-- The blur band height `max(1, int(h * region_fraction))`. -/
def blurBandHeight (h : ℕ) (fraction : ℚ) : ℕ :=
  max 1 (pyInt ((h : ℚ) * fraction)).toNat

/-- The draw of the band top row: `random.randint(0, max(0, h - band_height))`. -/
def blurTopDraw (h bandH : ℕ) (g : RNG) : ℤ × RNG :=
  randintQ 0 (max 0 ((h : ℤ) - bandH)) g

/-- Model of `apply_regional_blur`: with the drawn probability, crop a random
horizontal band, blur it with the external `ImageFilter.GaussianBlur`
primitive `blurE`, and paste it back in place. -/
def apply_regional_blur (blurE : Image → ℚ → Image) (img : Image)
    (probability radius region_fraction : ℚ) (g : RNG) : Image × RNG :=
  let u := randomQ g
  if u.1 > probability then (img, u.2)
  else
    let w := img.width
    let h := img.height
    let bandH := blurBandHeight h region_fraction
    let t := blurTopDraw h bandH u.2
    let bottom : ℤ := min (h : ℤ) (t.1 + bandH)
    let band := img.crop 0 t.1 (w : ℤ) bottom
    let band2 := blurE band radius
    (img.paste band2 0 t.1, t.2)

/-! ## Wrinkle simulation -/

/-- Rational stand-in for `math.pi`; no proved claim depends on its value. -/
def piQ : ℚ := 3141592653589793/1000000000000000

/-- Signed perpendicular distance of pixel `(x, y)` from the crease centre
line, accounting for the slight angular tilt. -/
def wrinkleDist (horizontal : Bool) (cos_a sin_a : ℚ) (center : ℤ)
    (w h x y : ℕ) : ℚ :=
  if horizontal then ((y : ℚ) - center) * cos_a + ((x : ℚ) - (w : ℚ) / 2) * sin_a
  else ((x : ℚ) - center) * cos_a + ((y : ℚ) - (h : ℚ) / 2) * sin_a

/-- The brightness-modulation term of the crease: zero outside 40% of the
falloff width, otherwise `sign * envelope * 0.06 * 255` with `sign = +1`
on the positive-distance side and `-1` on the other. -/
def shadowTerm (dist : ℚ) (falloff : ℤ) : ℚ :=
  if |dist| < (falloff : ℚ) * (4/10) then
    (if 0 < dist then 1 else -1) *
      (1 - |dist| / ((falloff : ℚ) * (4/10))) * (6/100) * 255
  else 0

/-- The per-pixel body of the wrinkle loop: distance test, quadratic
falloff envelope, sinusoidal displacement, bilinear sampling with clamped
source coordinates, and shadow modulation.  Pixels at or beyond the
falloff distance keep the value copied from the source. -/
def wrinklePixel (sinQ : ℚ → ℚ) (src : Image) (horizontal : Bool)
    (cos_a sin_a : ℚ) (center falloff : ℤ) (wavelength amplitude : ℚ)
    (x y : ℕ) : RGB :=
  let w := src.width
  let h := src.height
  let dist := wrinkleDist horizontal cos_a sin_a center w h x y
  let abs_dist := |dist|
  if (falloff : ℚ) ≤ abs_dist then src.pix x y
  else
    let envelope := (1 - abs_dist / (falloff : ℚ)) * (1 - abs_dist / (falloff : ℚ))
    let along : ℚ := if horizontal then (x : ℚ) else (y : ℚ)
    let displacement := amplitude * envelope * sinQ (2 * piQ * along / wavelength)
    let sx0 : ℚ := if horizontal then (x : ℚ) else (x : ℚ) + displacement
    let sy0 : ℚ := if horizontal then (y : ℚ) + displacement else (y : ℚ)
    let sx := max 0 (min ((w : ℚ) - 1001/1000) sx0)
    let sy := max 0 (min ((h : ℚ) - 1001/1000) sy0)
    let x0 := pyInt sx
    let y0 := pyInt sy
    let x1 := min (x0 + 1) ((w : ℤ) - 1)
    let y1 := min (y0 + 1) ((h : ℤ) - 1)
    let fx := sx - x0
    let fy := sy - y0
    let p00 := src.pix x0.toNat y0.toNat
    let p10 := src.pix x1.toNat y0.toNat
    let p01 := src.pix x0.toNat y1.toNat
    let p11 := src.pix x1.toNat y1.toNat
    let r : ℚ := (p00.1 : ℚ) * (1 - fx) * (1 - fy) + (p10.1 : ℚ) * fx * (1 - fy) +
      (p01.1 : ℚ) * (1 - fx) * fy + (p11.1 : ℚ) * fx * fy
    let gr : ℚ := (p00.2.1 : ℚ) * (1 - fx) * (1 - fy) + (p10.2.1 : ℚ) * fx * (1 - fy) +
      (p01.2.1 : ℚ) * (1 - fx) * fy + (p11.2.1 : ℚ) * fx * fy
    let b : ℚ := (p00.2.2 : ℚ) * (1 - fx) * (1 - fy) + (p10.2.2 : ℚ) * fx * (1 - fy) +
      (p01.2.2 : ℚ) * (1 - fx) * fy + (p11.2.2 : ℚ) * fx * fy
    let shadow := shadowTerm dist falloff
    (clampChan (pyInt (r - shadow)), clampChan (pyInt (gr - shadow)),
      clampChan (pyInt (b - shadow)))

/-- One wrinkle: draw orientation, tilt, centre line, falloff width and
wavelength, then rewrite every pixel of a copy of the image. -/
def wrinkleOnce (sinQ cosQ : ℚ → ℚ) (amplitude : ℚ) (img : Image) (g : RNG) :
    Image × RNG :=
  let w := img.width
  let h := img.height
  let uh := randomQ g
  let horizontal := uh.1 < 1/2
  let ua := uniformQ (-8/100) (8/100) uh.2
  let cos_a := cosQ ua.1
  let sin_a := sinQ ua.1
  let uc :=
    if horizontal then
      randintQ (pyInt ((h : ℚ) * (15/100))) (pyInt ((h : ℚ) * (85/100))) ua.2
    else
      randintQ (pyInt ((w : ℚ) * (15/100))) (pyInt ((w : ℚ) * (85/100))) ua.2
  let uf :=
    if horizontal then
      randintQ (pyInt ((h : ℚ) * (3/100))) (pyInt ((h : ℚ) * (8/100))) uc.2
    else
      randintQ (pyInt ((w : ℚ) * (3/100))) (pyInt ((w : ℚ) * (8/100))) uc.2
  let falloff := max uf.1 4
  let uw := uniformQ 80 200 uf.2
  ({ width := w
   , height := h
   , pix := fun x y =>
       wrinklePixel sinQ img horizontal cos_a sin_a uc.1 falloff uw.1 amplitude x y },
    uw.2)

/-- The sequential wrinkle loop: each wrinkle reads the output of the
previous one. -/
def wrinkleLoop (sinQ cosQ : ℚ → ℚ) (amplitude : ℚ) :
    ℕ → Image × RNG → Image × RNG
  | 0, s => s
  | n + 1, s => wrinkleLoop sinQ cosQ amplitude n (wrinkleOnce sinQ cosQ amplitude s.1 s.2)

/-- Model of `apply_wrinkle`: the no-op guard (`num_wrinkles <= 0 or amplitude < 0.5`)
followed by the sequential wrinkle loop.  The unused `blur_radius`
parameter of the source is kept. -/
def apply_wrinkle (sinQ cosQ : ℚ → ℚ) (img : Image) (num_wrinkles : ℤ)
    (amplitude : ℚ) (blur_radius : ℚ) (g : RNG) : Image × RNG :=
  if num_wrinkles ≤ 0 ∨ amplitude < 1/2 then (img, g)
  else wrinkleLoop sinQ cosQ amplitude num_wrinkles.toNat (img, g)

/-! ## The full page pipeline -/

/-- Model of `distort_page`: sample the parameters, then apply rotation, perspective
warp, the probabilistic wrinkle stage, brightness/contrast, grain noise,
vignette and the probabilistic regional blur, threading the shared
generator through every stage in source order.  The external primitives
(rotation, Gaussian blur, the perspective resampling kernel, sin/cos) are
parameters. -/
def distort_page (rotateE : Image → ℚ → RGB → Image)
    (blurE : Image → ℚ → Image) (sample : Image → ℚ → ℚ → RGB)
    (sinQ cosQ : ℚ → ℚ) (img : Image) (intensity : Intensity) (g : RNG) :
    Image × RNG :=
  let pr := randomize_params intensity g
  let params := pr.1
  let img1 := apply_rotation rotateE img params.rotation_angle white
  let w2 := apply_perspective_warp sample img1 params.perspective_magnitude pr.2
  let uw := randomQ w2.2
  let w3 :=
    if uw.1 < params.wrinkle_prob then
      apply_wrinkle sinQ cosQ w2.1 params.wrinkle_count params.wrinkle_amplitude
        (3/2) uw.2
    else (w2.1, uw.2)
  let img4 := apply_brightness_contrast w3.1 params.brightness params.contrast
  let w5 := apply_noise img4 params.noise_opacity w3.2
  let img6 := apply_vignette_fast w5.1 params.vignette_strength
    params.vignette_radius
  apply_regional_blur blurE img6 params.regional_blur_prob
    params.regional_blur_radius params.regional_blur_fraction w5.2

/-- A full run of the pipeline from a seed: the caller seeds the shared
generator (`random.seed(s)`) and distorts one page. -/
def runPipeline (rotateE : Image → ℚ → RGB → Image)
    (blurE : Image → ℚ → Image) (sample : Image → ℚ → ℚ → RGB)
    (sinQ cosQ : ℚ → ℚ) (img : Image) (intensity : Intensity) (s : ℕ) : Image :=
  (distort_page rotateE blurE sample sinQ cosQ img intensity (seedRNG s)).1

/-! ## Dimension preservation -/

theorem apply_rotation_width (rotateE : Image → ℚ → RGB → Image) (img : Image)
    (angle : ℚ) (fill : RGB) :
    (apply_rotation rotateE img angle fill).width = img.width := by
  unfold apply_rotation Image.crop
  dsimp only
  omega

theorem apply_rotation_height (rotateE : Image → ℚ → RGB → Image) (img : Image)
    (angle : ℚ) (fill : RGB) :
    (apply_rotation rotateE img angle fill).height = img.height := by
  unfold apply_rotation Image.crop
  dsimp only
  omega

theorem wrinkleLoop_width (sinQ cosQ : ℚ → ℚ) (amplitude : ℚ) :
    ∀ (n : ℕ) (s : Image × RNG),
      (wrinkleLoop sinQ cosQ amplitude n s).1.width = s.1.width
  | 0, _ => rfl
  | n + 1, s => wrinkleLoop_width sinQ cosQ amplitude n _

theorem wrinkleLoop_height (sinQ cosQ : ℚ → ℚ) (amplitude : ℚ) :
    ∀ (n : ℕ) (s : Image × RNG),
      (wrinkleLoop sinQ cosQ amplitude n s).1.height = s.1.height
  | 0, _ => rfl
  | n + 1, s => wrinkleLoop_height sinQ cosQ amplitude n _

theorem apply_wrinkle_width (sinQ cosQ : ℚ → ℚ) (img : Image) (n : ℤ)
    (amplitude blur_radius : ℚ) (g : RNG) :
    (apply_wrinkle sinQ cosQ img n amplitude blur_radius g).1.width = img.width := by
  unfold apply_wrinkle
  split
  · rfl
  · exact wrinkleLoop_width sinQ cosQ amplitude n.toNat (img, g)

theorem apply_wrinkle_height (sinQ cosQ : ℚ → ℚ) (img : Image) (n : ℤ)
    (amplitude blur_radius : ℚ) (g : RNG) :
    (apply_wrinkle sinQ cosQ img n amplitude blur_radius g).1.height = img.height := by
  unfold apply_wrinkle
  split
  · rfl
  · exact wrinkleLoop_height sinQ cosQ amplitude n.toNat (img, g)

theorem apply_regional_blur_width (blurE : Image → ℚ → Image) (img : Image)
    (p r f : ℚ) (g : RNG) :
    (apply_regional_blur blurE img p r f g).1.width = img.width := by
  unfold apply_regional_blur
  dsimp only
  split <;> rfl

theorem apply_regional_blur_height (blurE : Image → ℚ → Image) (img : Image)
    (p r f : ℚ) (g : RNG) :
    (apply_regional_blur blurE img p r f g).1.height = img.height := by
  unfold apply_regional_blur
  dsimp only
  split <;> rfl

theorem apply_perspective_warp_width (sample : Image → ℚ → ℚ → RGB)
    (img : Image) (m : ℚ) (g : RNG) :
    (apply_perspective_warp sample img m g).1.width = img.width := rfl

theorem apply_perspective_warp_height (sample : Image → ℚ → ℚ → RGB)
    (img : Image) (m : ℚ) (g : RNG) :
    (apply_perspective_warp sample img m g).1.height = img.height := rfl

theorem apply_noise_width (img : Image) (o : ℚ) (g : RNG) :
    (apply_noise img o g).1.width = img.width := rfl

theorem apply_noise_height (img : Image) (o : ℚ) (g : RNG) :
    (apply_noise img o g).1.height = img.height := rfl

theorem apply_brightness_contrast_width (img : Image) (b c : ℚ) :
    (apply_brightness_contrast img b c).width = img.width := rfl

theorem apply_brightness_contrast_height (img : Image) (b c : ℚ) :
    (apply_brightness_contrast img b c).height = img.height := rfl

theorem apply_vignette_fast_width (img : Image) (s r : ℚ) :
    (apply_vignette_fast img s r).width = img.width := rfl

theorem apply_vignette_fast_height (img : Image) (s r : ℚ) :
    (apply_vignette_fast img s r).height = img.height := rfl

/-- Claim C5: `apply_rotation` (rotate with canvas expansion and white
fill, then centre-crop) returns an image of the input's dimensions, for
every rotation primitive, image, angle and fill colour. -/
theorem C5_apply_rotation_preserves_dims (rotateE : Image → ℚ → RGB → Image)
    (img : Image) (angle : ℚ) (fill : RGB) :
    (apply_rotation rotateE img angle fill).width = img.width ∧
      (apply_rotation rotateE img angle fill).height = img.height :=
  ⟨apply_rotation_width rotateE img angle fill,
    apply_rotation_height rotateE img angle fill⟩

/-- Claim C2: the full `distort_page` pipeline preserves the input image's
width and height, for every intensity preset, generator state, and choice
of the external primitives. -/
theorem C2_distort_page_preserves_dims (rotateE : Image → ℚ → RGB → Image)
    (blurE : Image → ℚ → Image) (sample : Image → ℚ → ℚ → RGB)
    (sinQ cosQ : ℚ → ℚ) (img : Image) (intensity : Intensity) (g : RNG) :
    (distort_page rotateE blurE sample sinQ cosQ img intensity g).1.width =
        img.width ∧
      (distort_page rotateE blurE sample sinQ cosQ img intensity g).1.height =
        img.height := by
  unfold distort_page
  dsimp only
  constructor
  · rw [apply_regional_blur_width, apply_vignette_fast_width, apply_noise_width,
      apply_brightness_contrast_width]
    split
    · rw [apply_wrinkle_width, apply_perspective_warp_width]
      exact apply_rotation_width _ _ _ _
    · rw [show (_, (randomQ _).2).1 = _ from rfl, apply_perspective_warp_width]
      exact apply_rotation_width _ _ _ _
  · rw [apply_regional_blur_height, apply_vignette_fast_height, apply_noise_height,
      apply_brightness_contrast_height]
    split
    · rw [apply_wrinkle_height, apply_perspective_warp_height]
      exact apply_rotation_height _ _ _ _
    · rw [show (_, (randomQ _).2).1 = _ from rfl, apply_perspective_warp_height]
      exact apply_rotation_height _ _ _ _

/-- Claim C7: a wrinkle amplitude below the `0.5` threshold makes
`apply_wrinkle` return the input image (and generator) unchanged, for
every wrinkle count. -/
theorem C7_wrinkle_amplitude_guard (sinQ cosQ : ℚ → ℚ) (img : Image)
    (num_wrinkles : ℤ) (amplitude blur_radius : ℚ) (g : RNG)
    (h : amplitude < 1/2) :
    apply_wrinkle sinQ cosQ img num_wrinkles amplitude blur_radius g = (img, g) := by
  unfold apply_wrinkle
  rw [if_pos (Or.inr h)]

/-! Concrete inputs shared by witnesses. -/

/-- A concrete generator: the constant stream `1/2`. -/
def halfRNG : RNG where
  stream := fun _ => 1/2
  pos := 0
  hstream := fun _ => by norm_num

/-- A concrete 8x8 mid-gray test image. -/
def gray8 : Image := solidImage 8 8 (128, 128, 128)

/-- Witness for C7 at a concrete image, count and amplitude. -/
theorem C7_wrinkle_amplitude_guard_witness :
    (3/10 : ℚ) < 1/2 ∧
      apply_wrinkle (fun _ => 0) (fun _ => 1) gray8 3 (3/10) (3/2) halfRNG =
        (gray8, halfRNG) :=
  ⟨by norm_num,
    C7_wrinkle_amplitude_guard (fun _ => 0) (fun _ => 1) gray8 3 (3/10) (3/2)
      halfRNG (by norm_num)⟩

/-! ## Determinism of the pipeline (C1) -/

/-- Claim C1: two runs of the full page-distortion pipeline on the same
input image and preset, each started from the shared generator seeded with
the same seed, produce identical output images.  In the embedding the
pipeline is an explicit function of the seeded generator state, so a run
is fully determined by image, preset, seed and the external primitives. -/
theorem C1_distort_page_deterministic (rotateE : Image → ℚ → RGB → Image)
    (blurE : Image → ℚ → Image) (sample : Image → ℚ → ℚ → RGB)
    (sinQ cosQ : ℚ → ℚ) (img : Image) (intensity : Intensity) (s : ℕ)
    (out1 out2 : Image)
    (h1 : out1 = runPipeline rotateE blurE sample sinQ cosQ img intensity s)
    (h2 : out2 = runPipeline rotateE blurE sample sinQ cosQ img intensity s) :
    out1 = out2 :=
  h1.trans h2.symm

/-- Identity stand-ins for the external primitives, used by witnesses. -/
def rotE0 : Image → ℚ → RGB → Image := fun im _ _ => im

def blurE0 : Image → ℚ → Image := fun im _ => im

/-- A grid-exact resampling kernel: floor both coordinates.  It agrees
with the library's bicubic kernel on integer source coordinates. -/
def sample0 : Image → ℚ → ℚ → RGB := fun im qx qy => im.pix ⌊qx⌋.toNat ⌊qy⌋.toNat

/-- Witness for C1: a concrete seeded run equals itself. -/
theorem C1_distort_page_deterministic_witness :
    runPipeline rotE0 blurE0 sample0 (fun _ => 0) (fun _ => 1) gray8
        Intensity.medium 42 =
      runPipeline rotE0 blurE0 sample0 (fun _ => 0) (fun _ => 1) gray8
        Intensity.medium 42 :=
  C1_distort_page_deterministic rotE0 blurE0 sample0 (fun _ => 0) (fun _ => 1)
    gray8 Intensity.medium 42 _ _ rfl rfl

/-! ## Totality on tiny images (C10) -/

/-- Claim C10: `apply_noise` and `apply_vignette_fast` are total even on
degenerate image sizes: the reduced noise-field and mask dimensions are
clamped to at least one pixel, the vignette centre coordinates are
strictly positive (so the guarded centre-distance divisions never divide
by zero), and both operations return an image of the input dimensions. -/
theorem C10_tiny_image_totality (img : Image) (opacity s rf : ℚ) (g : RNG) :
    1 ≤ noiseSmallW img.width ∧ 1 ≤ noiseSmallH img.height ∧
      1 ≤ vigMaskW img.width ∧ 1 ≤ vigMaskH img.height ∧
      0 < vigCx img.width ∧ 0 < vigCy img.height ∧
      (apply_noise img opacity g).1.width = img.width ∧
      (apply_noise img opacity g).1.height = img.height ∧
      (apply_vignette_fast img s rf).width = img.width ∧
      (apply_vignette_fast img s rf).height = img.height := by
  refine ⟨le_max_left 1 _, le_max_left 1 _, le_max_left 1 _, le_max_left 1 _,
    ?_, ?_, rfl, rfl, rfl, rfl⟩
  · unfold vigCx
    have h : (1 : ℚ) ≤ (vigMaskW img.width : ℚ) := by
      exact_mod_cast le_max_left 1 (img.width / 8)
    linarith
  · unfold vigCy
    have h : (1 : ℚ) ≤ (vigMaskH img.height : ℚ) := by
      exact_mod_cast le_max_left 1 (img.height / 8)
    linarith

/-! ## The frame property of regional blur (C8) -/

theorem paste_pix_outside_rows (base over : Image) (ox oy : ℤ) (x y : ℕ)
    (h : (y : ℤ) < oy ∨ oy + over.height ≤ (y : ℤ)) :
    (base.paste over ox oy).pix x y = base.pix x y := by
  unfold Image.paste
  dsimp only
  rw [if_neg]
  rintro ⟨-, -, h3, h4⟩
  omega

/-- Claim C8: whenever the regional-blur coin flip succeeds, every pixel
whose row lies outside the band `[top, top + band_height)` is identical to
the corresponding input pixel, for every dimension-preserving blur
primitive. -/
theorem C8_regional_blur_frame (blurE : Image → ℚ → Image)
    (hdim : ∀ im r, (blurE im r).width = im.width ∧ (blurE im r).height = im.height)
    (img : Image) (p radius f : ℚ) (g : RNG)
    (htrig : ¬ (randomQ g).1 > p) (x y : ℕ)
    (hy : (y : ℤ) < (blurTopDraw img.height (blurBandHeight img.height f) (randomQ g).2).1 ∨
      (blurTopDraw img.height (blurBandHeight img.height f) (randomQ g).2).1 +
        (blurBandHeight img.height f : ℤ) ≤ (y : ℤ)) :
    (apply_regional_blur blurE img p radius f g).1.pix x y = img.pix x y := by
  unfold apply_regional_blur
  dsimp only
  rw [if_neg htrig]
  dsimp only
  apply paste_pix_outside_rows
  rcases hy with hy | hy
  · exact Or.inl hy
  · refine Or.inr ?_
    rw [(hdim _ _).2]
    show _ + ((min ((img.height : ℤ)) (_ + (blurBandHeight img.height f : ℤ))) - _).toNat ≤ (y : ℤ)
    omega

/-- Witness for C8: concrete image, fraction, generator and pixel. -/
theorem C8_regional_blur_frame_witness :
    ¬ (randomQ halfRNG).1 > 1 ∧
      (apply_regional_blur blurE0 gray8 1 2 (1/4) halfRNG).1.pix 0 0 =
        gray8.pix 0 0 := by
  have htrig : ¬ (randomQ halfRNG).1 > 1 := by
    norm_num [randomQ, halfRNG]
  refine ⟨htrig, C8_regional_blur_frame blurE0 (fun _ _ => ⟨rfl, rfl⟩) gray8
    1 2 (1/4) halfRNG htrig 0 0 (Or.inl (by
      norm_num [blurTopDraw, randintQ, randomQ, halfRNG, blurBandHeight, pyInt,
        gray8, solidImage]))⟩

/-! ## Identity parameters are no-ops (C6) -/

theorem pyInt_intCast (z : ℤ) : pyInt (z : ℚ) = z := by
  unfold pyInt
  split
  · exact Int.floor_intCast z
  · rw [show (-(z : ℚ)) = ((-z : ℤ) : ℚ) by push_cast; ring, Int.floor_intCast]
    ring

theorem pyInt_natCast (n : ℕ) : pyInt (n : ℚ) = n := by
  rw [show ((n : ℚ)) = (((n : ℤ)) : ℚ) by push_cast; ring]
  exact pyInt_intCast n

theorem clampChan_coe (c : Fin 256) : clampChan ((c : ℕ) : ℤ) = c := by
  unfold clampChan
  apply Fin.ext
  have := c.isLt
  simp
  omega

theorem blendChan_zero (a b : Fin 256) : blendChan a b 0 = a := by
  unfold blendChan
  rw [zero_mul, add_zero, show ((a : ℚ)) = (((a : ℕ) : ℤ) : ℚ) by push_cast; ring,
    pyInt_intCast, clampChan_coe]

theorem blendChan_one (a b : Fin 256) : blendChan a b 1 = b := by
  unfold blendChan
  rw [one_mul, show (a : ℚ) + ((b : ℚ) - (a : ℚ)) = (((b : ℕ) : ℤ) : ℚ) by
      push_cast; ring,
    pyInt_intCast, clampChan_coe]

theorem blendImages_zero (im1 im2 : Image) (hw : im1.width = im2.width) :
    blendImages im1 im2 0 = im1 := by
  refine Image.ext_pix rfl rfl fun x y => ?_
  show (blendChan _ _ 0, blendChan _ _ 0, blendChan _ _ 0) = im1.pix x y
  rw [blendChan_zero, blendChan_zero, blendChan_zero]

theorem blendImages_one (im1 im2 : Image) (hw : im1.width = im2.width)
    (hh : im1.height = im2.height) : blendImages im1 im2 1 = im2 := by
  refine Image.ext_pix hw hh fun x y => ?_
  show (blendChan _ _ 1, blendChan _ _ 1, blendChan _ _ 1) = im2.pix x y
  rw [blendChan_one, blendChan_one, blendChan_one]

theorem apply_brightness_contrast_id (img : Image) :
    apply_brightness_contrast img 1 1 = img := by
  unfold apply_brightness_contrast enhanceContrast enhanceBrightness
  rw [blendImages_one (solidImage img.width img.height (0, 0, 0)) img rfl rfl]
  exact blendImages_one _ img rfl rfl

theorem apply_noise_zero (img : Image) (g : RNG) :
    (apply_noise img 0 g).1 = img := by
  unfold apply_noise
  exact blendImages_zero _ _ rfl

theorem muldiv255_zero (b : ℕ) : muldiv255 b 0 = 0 := by
  simp [muldiv255]

theorem muldiv255_full (a : ℕ) (ha : a ≤ 255) : muldiv255 a 255 = a := by
  unfold muldiv255
  omega

theorem maskChan_full (a b : Fin 256) : maskChan a b 255 = a := by
  unfold maskChan
  apply Fin.ext
  have ha := a.isLt
  simp only [Nat.sub_self, muldiv255_full (a : ℕ) (by omega), muldiv255_zero,
    add_zero]
  omega

theorem getD_of_all {l : List ℤ} {v : ℤ} (hall : ∀ a ∈ l, a = v) :
    ∀ {n : ℕ}, n < l.length → ∀ d, l.getD n d = v := by
  induction l with
  | nil => intro n hn; simp at hn
  | cons a l ih =>
    intro n hn d
    cases n with
    | zero => exact hall a (List.mem_cons_self a l)
    | succ m =>
      simp only [List.getD_cons_succ]
      exact ih (fun b hb => hall b (List.mem_cons_of_mem a hb))
        (by simpa using hn) d

theorem vigPixels_length (strength rf : ℚ) (sw sh : ℕ) :
    (vigPixels strength rf sw sh).length = sh * sw := by
  unfold vigPixels
  simp [List.length_flatMap, Function.comp_def, List.sum_replicate, mul_comm]

theorem vigPixels_zero_mem (rf : ℚ) (sw sh : ℕ) :
    ∀ a ∈ vigPixels 0 rf sw sh, a = 255 := by
  intro a ha
  unfold vigPixels at ha
  rw [List.mem_flatMap] at ha
  obtain ⟨y, -, hy⟩ := ha
  rw [List.mem_map] at hy
  obtain ⟨x, -, rfl⟩ := hy
  unfold vigMaskVal
  dsimp only
  rw [zero_mul, sub_zero, mul_one]
  exact_mod_cast pyInt_natCast 255

/-- Row-major index bound for in-range pixel reads. -/
theorem rowMajorIdx_lt {x y sw sh : ℕ} (hx : x < sw) (hy : y < sh) :
    y * sw + x < sh * sw := by
  calc y * sw + x < y * sw + sw := by omega
    _ = (y + 1) * sw := by ring
    _ ≤ sh * sw := Nat.mul_le_mul_right sw hy

/-- A bilinear upscale of a constant image is that constant, at every
output coordinate. -/
theorem resizeGray_const (src : GrayImage) (v : Fin 256)
    (hsrc : ∀ x y, x < src.width → y < src.height → src.pix x y = v)
    (hw : 1 ≤ src.width) (hh : 1 ≤ src.height) (W H x y : ℕ) :
    (resizeGray src W H).pix x y = v := by
  unfold resizeGray
  dsimp only
  set sx := clampQ 0 ((src.width : ℚ) - 1) (((x : ℚ) + 1/2) * src.width / W - 1/2) with hsx
  set sy := clampQ 0 ((src.height : ℚ) - 1) (((y : ℚ) + 1/2) * src.height / H - 1/2) with hsy
  have hsx0 : 0 ≤ sx := le_max_left _ _
  have hsy0 : 0 ≤ sy := le_max_left _ _
  have hsxW : sx ≤ (src.width : ℚ) - 1 := by
    rw [hsx]
    unfold clampQ
    have h1 : (0 : ℚ) ≤ (src.width : ℚ) - 1 := by
      have : (1 : ℚ) ≤ (src.width : ℚ) := by exact_mod_cast hw
      linarith
    exact max_le h1 (min_le_left _ _)
  have hsyH : sy ≤ (src.height : ℚ) - 1 := by
    rw [hsy]
    unfold clampQ
    have h1 : (0 : ℚ) ≤ (src.height : ℚ) - 1 := by
      have : (1 : ℚ) ≤ (src.height : ℚ) := by exact_mod_cast hh
      linarith
    exact max_le h1 (min_le_left _ _)
  have hx0lt : ⌊sx⌋.toNat < src.width := by
    have h1 : (0 : ℤ) ≤ ⌊sx⌋ := Int.floor_nonneg.mpr hsx0
    have h2 : ⌊sx⌋ ≤ (src.width : ℤ) - 1 := by
      have := Int.floor_le_floor hsxW
      rwa [show ((src.width : ℚ) - 1) = (((src.width : ℤ) - 1 : ℤ) : ℚ) by
        push_cast; ring, Int.floor_intCast] at this
    omega
  have hy0lt : ⌊sy⌋.toNat < src.height := by
    have h1 : (0 : ℤ) ≤ ⌊sy⌋ := Int.floor_nonneg.mpr hsy0
    have h2 : ⌊sy⌋ ≤ (src.height : ℤ) - 1 := by
      have := Int.floor_le_floor hsyH
      rwa [show ((src.height : ℚ) - 1) = (((src.height : ℤ) - 1 : ℤ) : ℚ) by
        push_cast; ring, Int.floor_intCast] at this
    omega
  have hx1lt : min (⌊sx⌋.toNat + 1) (src.width - 1) < src.width := by omega
  have hy1lt : min (⌊sy⌋.toNat + 1) (src.height - 1) < src.height := by omega
  rw [hsrc _ _ hx0lt hy0lt, hsrc _ _ hx1lt hy0lt, hsrc _ _ hx0lt hy1lt,
    hsrc _ _ hx1lt hy1lt]
  rw [show (v : ℚ) * (1 - (sx - ⌊sx⌋.toNat)) * (1 - (sy - ⌊sy⌋.toNat)) +
      (v : ℚ) * (sx - ⌊sx⌋.toNat) * (1 - (sy - ⌊sy⌋.toNat)) +
      (v : ℚ) * (1 - (sx - ⌊sx⌋.toNat)) * (sy - ⌊sy⌋.toNat) +
      (v : ℚ) * (sx - ⌊sx⌋.toNat) * (sy - ⌊sy⌋.toNat) = (v : ℚ) by ring]
  have hfl : pyInt ((v : ℚ) + 1/2) = ((v : ℕ) : ℤ) := by
    unfold pyInt
    rw [if_pos (by positivity), Int.floor_eq_iff]
    constructor
    · push_cast
      linarith
    · push_cast
      linarith
  rw [hfl, clampChan_coe]

theorem grayPutdata_all255 (w h : ℕ) (l : List ℤ) (x y : ℕ) (hx : x < w)
    (hy : y < h) (hlen : l.length = h * w) (hall : ∀ a ∈ l, a = 255) :
    (grayPutdata w h l).pix x y = 255 := by
  unfold grayPutdata
  dsimp only
  rw [getD_of_all hall (by rw [hlen]; exact rowMajorIdx_lt hx hy)]
  decide

theorem apply_vignette_zero (img : Image) (rf : ℚ) :
    apply_vignette_fast img 0 rf = img := by
  unfold apply_vignette_fast
  dsimp only
  refine Image.ext_pix rfl rfl fun x y => ?_
  have hmask : (resizeGray
      (grayPutdata (vigMaskW img.width) (vigMaskH img.height)
        (vigPixels 0 rf (vigMaskW img.width) (vigMaskH img.height)))
      img.width img.height).pix x y = 255 := by
    apply resizeGray_const
    · intro u v hu hv
      exact grayPutdata_all255 _ _ _ u v hu hv
        (vigPixels_length 0 rf _ _) (vigPixels_zero_mem rf _ _)
    · exact le_max_left 1 _
    · exact le_max_left 1 _
  show (maskChan _ _ _, maskChan _ _ _, maskChan _ _ _) = img.pix x y
  rw [hmask]
  show (maskChan _ _ 255, maskChan _ _ 255, maskChan _ _ 255) = img.pix x y
  rw [maskChan_full, maskChan_full, maskChan_full]

/-- Claim C6: identity parameters are no-ops: vignette strength `0`, grain
opacity `0`, and brightness/contrast factors `1.0` each leave the image
unchanged. -/
theorem C6_identity_params_noop (img : Image) (rf : ℚ) (g : RNG) :
    apply_vignette_fast img 0 rf = img ∧ (apply_noise img 0 g).1 = img ∧
      apply_brightness_contrast img 1 1 = img :=
  ⟨apply_vignette_zero img rf, apply_noise_zero img g,
    apply_brightness_contrast_id img⟩

/-! ## The crease shadow modulation (C9) -/

/-- The zero function, standing in for `math.sin` in concrete runs where
every sine argument is zero. -/
def sin0 : ℚ → ℚ := fun _ => 0

/-- The constant-one function, standing in for `math.cos` in concrete runs
where the drawn tilt angle is zero. -/
def cos1 : ℚ → ℚ := fun _ => 1

/-- Claim C9, amended: within 40% of the falloff width around the crease
line the shadow term equals the fixed strength `0.06 * 255` scaled by the
envelope fading to zero at that boundary; it darkens (is subtracted
positive) on the positive-distance side and symmetrically lightens (is
subtracted negative) on the non-positive side — the non-positive side is
not left unmodified. -/
theorem C9_wrinkle_shadow_amended (dist : ℚ) (falloff : ℤ)
    (hf : 4 ≤ falloff) (hd : |dist| < (falloff : ℚ) * (4/10)) :
    (0 < dist →
      shadowTerm dist falloff =
        (1 - |dist| / ((falloff : ℚ) * (4/10))) * (6/100) * 255 ∧
      0 < shadowTerm dist falloff) ∧
    (dist ≤ 0 →
      shadowTerm dist falloff =
        -((1 - |dist| / ((falloff : ℚ) * (4/10))) * (6/100) * 255) ∧
      shadowTerm dist falloff < 0) := by
  have hfq : (0 : ℚ) < (falloff : ℚ) * (4/10) := by
    have : (0 : ℚ) < (falloff : ℚ) := by exact_mod_cast lt_of_lt_of_le (by norm_num) hf
    linarith
  have henv : 0 < 1 - |dist| / ((falloff : ℚ) * (4/10)) := by
    rw [sub_pos, div_lt_one hfq]
    exact hd
  constructor
  · intro hpos
    unfold shadowTerm
    rw [if_pos hd, if_pos hpos]
    exact ⟨by ring, by nlinarith⟩
  · intro hneg
    unfold shadowTerm
    rw [if_pos hd, if_neg (not_lt.mpr hneg)]
    exact ⟨by ring, by nlinarith⟩

/-- Witness for the amended C9 at `dist = -1`, `falloff = 4`. -/
theorem C9_wrinkle_shadow_amended_witness :
    (4 : ℤ) ≤ 4 ∧ |(-1 : ℚ)| < ((4 : ℤ) : ℚ) * (4/10) ∧
      ((-1 : ℚ) ≤ 0 →
        shadowTerm (-1) 4 = -((1 - |(-1 : ℚ)| / (((4 : ℤ) : ℚ) * (4/10))) * (6/100) * 255) ∧
        shadowTerm (-1) 4 < 0) :=
  ⟨le_refl 4, by norm_num,
    (C9_wrinkle_shadow_amended (-1) 4 (le_refl 4) (by norm_num)).2⟩

/-- Counterexample to C9 as stated: in a concrete wrinkle run (vertical
crease at column 4 with falloff 4, zero tilt, amplitude 2), the pixel
`(3, 4)` has signed distance `-1`, within 40% of the falloff width on the
negative side, yet its value changes from 128 to 133 (it is lightened, not
left unmodified). -/
theorem C9_wrinkle_shadow_counterexample :
    wrinkleDist false 1 0 4 gray8.width gray8.height 3 4 = -1 ∧
      |wrinkleDist false 1 0 4 gray8.width gray8.height 3 4| <
        ((4 : ℤ) : ℚ) * (4/10) ∧
      (apply_wrinkle sin0 cos1 gray8 1 2 (3/2) halfRNG).1.pix 3 4 ≠
        gray8.pix 3 4 := by
  refine ⟨by norm_num [wrinkleDist, gray8, solidImage], ?_, ?_⟩
  · norm_num [wrinkleDist, gray8, solidImage]
  · have h1 : (apply_wrinkle sin0 cos1 gray8 1 2 (3/2) halfRNG).1 =
        (wrinkleOnce sin0 cos1 2 gray8 halfRNG).1 := by
      unfold apply_wrinkle
      rw [if_neg (by norm_num)]
      rfl
    have h2 : (wrinkleOnce sin0 cos1 2 gray8 halfRNG).1.pix 3 4 =
        wrinklePixel sin0 gray8 false 1 0 4 4 140 2 3 4 := by
      unfold wrinkleOnce
      dsimp only
      norm_num [uniformQ, randintQ, randomQ, halfRNG, pyInt, gray8, solidImage,
        sin0, cos1]
    have h3 : wrinklePixel sin0 gray8 false 1 0 4 4 140 2 3 4 = (133, 133, 133) := by
      norm_num [wrinklePixel, wrinkleDist, shadowTerm, pyInt, gray8, solidImage,
        clampChan, sin0, piQ, show ((128 : Fin 256) : ℕ) = 128 from rfl]
      decide
    rw [h1, h2, h3]
    decide

/-! ## Totality of the solver (C4) -/

theorem geEps_pos : (0 : ℚ) < geEps := by norm_num [geEps]

theorem pivot_ne_zero_of_not_lt {p : ℚ} (h : ¬ |p| < geEps) : p ≠ 0 := by
  intro h0
  apply h
  rw [h0, abs_zero]
  exact geEps_pos

theorem stepColChecked_eq (st : GEState) (col : ℕ) :
    stepColChecked st col = some (stepCol st col) := by
  unfold stepColChecked stepCol
  dsimp only
  split
  · rfl
  · rename_i h
    rw [if_neg (pivot_ne_zero_of_not_lt h)]

theorem forwardChecked_eq (st : GEState) :
    ∀ k, forwardChecked st k = some (forwardUpTo st k)
  | 0 => rfl
  | k + 1 => by
    rw [forwardChecked, forwardChecked_eq st k, Option.some_bind]
    exact stepColChecked_eq _ k

theorem backSubStepChecked_eq (st : GEState) (c : List ℚ) (i : ℕ) :
    backSubStepChecked st c i = some (backSubStep st c i) := by
  unfold backSubStepChecked backSubStep
  dsimp only
  split
  · rfl
  · rename_i h
    rw [if_neg (pivot_ne_zero_of_not_lt h)]

theorem backSubChecked_eq (st : GEState) :
    ∀ k, backSubChecked st k = some (backSubUpTo st k)
  | 0 => rfl
  | k + 1 => by
    rw [backSubChecked, backSubChecked_eq st k, Option.some_bind]
    exact backSubStepChecked_eq st _ (7 - k)

theorem backSubUpTo_length (st : GEState) : ∀ k, (backSubUpTo st k).length = 8
  | 0 => by simp [backSubUpTo]
  | k + 1 => by
    rw [backSubUpTo, backSubStep]
    rw [List.length_set]
    exact backSubUpTo_length st k

/-- Claim C4: for every four-point correspondence, including degenerate
ones with near-singular pivots, the solver reaches no division by zero
(the checked mirror returns `some`, never Python's `ZeroDivisionError`)
and always returns a list of 8 coefficients; the epsilon guards skip
elimination for near-singular columns and zero the affected coefficients. -/
theorem C4_solver_total_eight_coeffs (src dst : List (ℚ × ℚ)) :
    findPerspectiveCoeffsChecked src dst =
        some (find_perspective_coeffs src dst) ∧
      (find_perspective_coeffs src dst).length = 8 := by
  constructor
  · unfold findPerspectiveCoeffsChecked find_perspective_coeffs
    rw [forwardChecked_eq, Option.some_bind]
    exact backSubChecked_eq _ 8
  · exact backSubUpTo_length _ 8

/-! ## Correctness of the solver on identity correspondences (C3)

The development below proves: whenever the `src = dst` system admits full
pivoting (no pivot below the epsilon), the elimination preserves the
solution vector of the identity homography, produces a strictly lower
triangular zero pattern, and back substitution reconstructs exactly the
identity coefficients `[1, 0, 0, 0, 1, 0, 0, 0]`. -/

theorem lset_getD_eq {α : Type*} (l : List α) (i : ℕ) (v d : α)
    (h : i < l.length) : (l.set i v).getD i d = v := by
  rw [List.getD_eq_getElem?_getD, List.getElem?_set_self (by simpa using h)]
  simp

theorem lset_getD_ne {α : Type*} (l : List α) (i r : ℕ) (v d : α)
    (h : i ≠ r) : (l.set i v).getD r d = l.getD r d := by
  rw [List.getD_eq_getElem?_getD, List.getElem?_set_ne h,
    ← List.getD_eq_getElem?_getD]

theorem getD_map_range {α : Type*} (f : ℕ → α) (i n : ℕ) (d : α) (h : i < n) :
    ((List.range n).map f).getD i d = f i := by
  rw [List.getD_eq_getElem?_getD, List.getElem?_map, List.getElem?_range h]
  simp

/-- The identity homography coefficient vector. -/
def eVec : ℕ → ℚ := fun i => if i = 0 ∨ i = 4 then 1 else 0

/-- The vector `c` solves every row of the system. -/
def SolvedBy (st : GEState) (c : ℕ → ℚ) : Prop :=
  ∀ r, r < 8 → ∑ j ∈ Finset.range 8, ent st.A r j * c j = st.B.getD r 0

/-- Columns `< k` are zero strictly below the diagonal. -/
def ZerosBelow (st : GEState) (k : ℕ) : Prop :=
  ∀ j r, j < k → j < r → r < 8 → ent st.A r j = 0

/-- The state is an 8x8 system. -/
def GEWF (st : GEState) : Prop := st.A.length = 8 ∧ st.B.length = 8

theorem ent_swapGE_A (st : GEState) (i j : ℕ) (hi : i < st.A.length)
    (hj : j < st.A.length) (r c : ℕ) :
    ent (swapGE st i j).A r c =
      if r = j then ent st.A i c
      else if r = i then ent st.A j c else ent st.A r c := by
  unfold swapGE ent
  dsimp only
  by_cases h1 : r = j
  · subst h1
    rw [lset_getD_eq _ _ _ _ (by rw [List.length_set]; exact hj), if_pos rfl]
  · rw [lset_getD_ne _ _ _ _ _ (fun hh => h1 hh.symm), if_neg h1]
    by_cases h2 : r = i
    · subst h2
      rw [lset_getD_eq _ _ _ _ hi, if_pos rfl]
    · rw [lset_getD_ne _ _ _ _ _ (fun hh => h2 hh.symm), if_neg h2]

theorem getD_swapGE_B (st : GEState) (i j : ℕ) (hi : i < st.B.length)
    (hj : j < st.B.length) (r : ℕ) :
    (swapGE st i j).B.getD r 0 =
      if r = j then st.B.getD i 0
      else if r = i then st.B.getD j 0 else st.B.getD r 0 := by
  unfold swapGE
  dsimp only
  by_cases h1 : r = j
  · subst h1
    rw [lset_getD_eq _ _ _ _ (by rw [List.length_set]; exact hj), if_pos rfl]
  · rw [lset_getD_ne _ _ _ _ _ (fun hh => h1 hh.symm), if_neg h1]
    by_cases h2 : r = i
    · subst h2
      rw [lset_getD_eq _ _ _ _ hi, if_pos rfl]
    · rw [lset_getD_ne _ _ _ _ _ (fun hh => h2 hh.symm), if_neg h2]

theorem swapGE_wf (st : GEState) (i j : ℕ) (hwf : GEWF st) :
    GEWF (swapGE st i j) := by
  obtain ⟨hA, hB⟩ := hwf
  constructor
  · show ((st.A.set i _).set j _).length = 8
    rw [List.length_set, List.length_set]
    exact hA
  · show ((st.B.set i _).set j _).length = 8
    rw [List.length_set, List.length_set]
    exact hB

theorem ent_elimBelow_A (st : GEState) (col r c : ℕ) (hr : r < 8) (hc : c < 8) :
    ent (elimBelow st col).A r c =
      if col < r then
        (if col ≤ c then
          ent st.A r c - ent st.A r col / ent st.A col col * ent st.A col c
         else ent st.A r c)
      else ent st.A r c := by
  unfold elimBelow ent
  dsimp only
  rw [getD_map_range _ _ _ _ hr]
  by_cases h : col < r
  · rw [if_pos h, if_pos h]
    unfold elimRowA
    rw [getD_map_range _ _ _ _ hc]
  · rw [if_neg h, if_neg h]

theorem getD_elimBelow_B (st : GEState) (col r : ℕ) (hr : r < 8) :
    (elimBelow st col).B.getD r 0 =
      if col < r then
        st.B.getD r 0 - ent st.A r col / ent st.A col col * st.B.getD col 0
      else st.B.getD r 0 := by
  unfold elimBelow
  dsimp only
  rw [getD_map_range _ _ _ _ hr]

theorem elimBelow_wf (st : GEState) (col : ℕ) : GEWF (elimBelow st col) := by
  constructor <;> simp [elimBelow]

theorem foldl_invariant {α β : Type*} (P : β → Prop) (op : β → α → β)
    (l : List α) (b : β) (hb : P b)
    (hstep : ∀ acc a, a ∈ l → P acc → P (op acc a)) : P (l.foldl op b) := by
  induction l generalizing b with
  | nil => exact hb
  | cons x xs ih =>
    exact ih _ (hstep b x (List.mem_cons_self x xs) hb)
      (fun acc a ha hacc => hstep acc a (List.mem_cons_of_mem x ha) hacc)

theorem pivotSearch_bounds (A : List (List ℚ)) (col : ℕ) (hcol : col < 8) :
    col ≤ pivotSearch A col ∧ pivotSearch A col < 8 := by
  unfold pivotSearch
  exact foldl_invariant (fun acc : ℕ × ℚ => col ≤ acc.1 ∧ acc.1 < 8) _ _ _
    ⟨le_refl col, hcol⟩
    (fun acc a ha hacc => by
      have hmem : col + 1 ≤ a ∧ a < col + 1 + (8 - (col + 1)) :=
        List.mem_range'_1.mp ha
      dsimp only
      split
      · exact ⟨by omega, by omega⟩
      · exact hacc)

theorem stepCol_wf (st : GEState) (col : ℕ) (hwf : GEWF st) :
    GEWF (stepCol st col) := by
  unfold stepCol
  dsimp only
  split
  · exact swapGE_wf st col _ hwf
  · exact elimBelow_wf _ col

theorem forwardUpTo_wf (st : GEState) (hwf : GEWF st) :
    ∀ n, GEWF (forwardUpTo st n)
  | 0 => hwf
  | n + 1 => stepCol_wf _ n (forwardUpTo_wf st hwf n)

theorem solvedBy_swapGE (st : GEState) (i j : ℕ) (hi : i < 8) (hj : j < 8)
    (hwf : GEWF st) (c : ℕ → ℚ) (h : SolvedBy st c) :
    SolvedBy (swapGE st i j) c := by
  intro r hr
  have hiA : i < st.A.length := by rw [hwf.1]; exact hi
  have hjA : j < st.A.length := by rw [hwf.1]; exact hj
  have hiB : i < st.B.length := by rw [hwf.2]; exact hi
  have hjB : j < st.B.length := by rw [hwf.2]; exact hj
  rw [getD_swapGE_B st i j hiB hjB r]
  rw [Finset.sum_congr rfl fun x _ => by rw [ent_swapGE_A st i j hiA hjA r x]]
  by_cases h1 : r = j
  · rw [if_pos h1]
    rw [Finset.sum_congr rfl fun x _ => by rw [if_pos h1]]
    exact h i hi
  · rw [if_neg h1]
    rw [Finset.sum_congr rfl fun x _ => by rw [if_neg h1]]
    by_cases h2 : r = i
    · rw [if_pos h2]
      rw [Finset.sum_congr rfl fun x _ => by rw [if_pos h2]]
      exact h j hj
    · rw [if_neg h2]
      rw [Finset.sum_congr rfl fun x _ => by rw [if_neg h2]]
      exact h r hr

theorem zerosBelow_swapGE (st : GEState) (col m : ℕ) (hm : col ≤ m)
    (hm8 : m < 8) (hcol8 : col < 8) (hwf : GEWF st) (hz : ZerosBelow st col) :
    ZerosBelow (swapGE st col m) col := by
  intro j r hj hjr hr8
  have hcA : col < st.A.length := by rw [hwf.1]; exact hcol8
  have hmA : m < st.A.length := by rw [hwf.1]; exact hm8
  rw [ent_swapGE_A st col m hcA hmA r j]
  by_cases h1 : r = m
  · rw [if_pos h1]
    exact hz j col hj hj hcol8
  · rw [if_neg h1]
    by_cases h2 : r = col
    · rw [if_pos h2]
      exact hz j m hj (by omega) hm8
    · rw [if_neg h2]
      exact hz j r hj hjr hr8

/-- One no-skip forward column preserves the solution vector and extends
the strictly-lower-triangular zero pattern to the processed column. -/
theorem stepCol_invariant (st : GEState) (col : ℕ) (hcol : col < 8)
    (hwf : GEWF st) (c : ℕ → ℚ) (hz : ZerosBelow st col) (hsol : SolvedBy st c)
    (hpiv : geEps ≤ |ent (swapGE st col (pivotSearch st.A col)).A col col|) :
    ZerosBelow (stepCol st col) (col + 1) ∧ SolvedBy (stepCol st col) c := by
  obtain ⟨hm, hm8⟩ := pivotSearch_bounds st.A col hcol
  have hwf1 : GEWF (swapGE st col (pivotSearch st.A col)) := swapGE_wf _ _ _ hwf
  have hz1 : ZerosBelow (swapGE st col (pivotSearch st.A col)) col :=
    zerosBelow_swapGE st col _ hm hm8 hcol hwf hz
  have hsol1 : SolvedBy (swapGE st col (pivotSearch st.A col)) c :=
    solvedBy_swapGE st col _ hcol hm8 hwf c hsol
  set st1 := swapGE st col (pivotSearch st.A col) with hst1
  have hstep : stepCol st col = elimBelow st1 col := by
    unfold stepCol
    dsimp only
    rw [if_neg (not_lt.mpr hpiv)]
  have hpne : ent st1.A col col ≠ 0 := by
    intro h0
    rw [h0, abs_zero] at hpiv
    exact absurd hpiv (not_le.mpr geEps_pos)
  rw [hstep]
  constructor
  · intro j r hj hjr hr8
    rw [ent_elimBelow_A st1 col r j hr8 (by omega)]
    by_cases hcr : col < r
    · rw [if_pos hcr]
      by_cases hcj : col ≤ j
      · have hj_eq : j = col := by omega
        subst hj_eq
        rw [if_pos (le_refl _), div_mul_cancel₀ _ hpne, sub_self]
      · rw [if_neg hcj]
        exact hz1 j r (by omega) hjr hr8
    · rw [if_neg hcr]
      exact hz1 j r (by omega) hjr hr8
  · intro r hr8
    rw [getD_elimBelow_B st1 col r hr8]
    by_cases hcr : col < r
    · rw [if_pos hcr]
      have hsum : ∑ j ∈ Finset.range 8, ent (elimBelow st1 col).A r j * c j =
          ∑ j ∈ Finset.range 8, (ent st1.A r j * c j -
            ent st1.A r col / ent st1.A col col *
              (if col ≤ j then ent st1.A col j * c j else 0)) := by
        refine Finset.sum_congr rfl fun j hj => ?_
        rw [ent_elimBelow_A st1 col r j hr8 (Finset.mem_range.mp hj), if_pos hcr]
        by_cases hcj : col ≤ j
        · rw [if_pos hcj, if_pos hcj]
          ring
        · rw [if_neg hcj, if_neg hcj]
          ring
      rw [hsum, Finset.sum_sub_distrib, ← Finset.mul_sum]
      have hguard : ∑ j ∈ Finset.range 8,
          (if col ≤ j then ent st1.A col j * c j else 0) =
          ∑ j ∈ Finset.range 8, ent st1.A col j * c j := by
        refine Finset.sum_congr rfl fun j hj => ?_
        by_cases hcj : col ≤ j
        · rw [if_pos hcj]
        · rw [if_neg hcj, hz1 j col (by omega) (by omega) hcol, zero_mul]
      rw [hguard, hsol1 r hr8, hsol1 col hcol]
    · rw [if_neg hcr]
      have : ∑ j ∈ Finset.range 8, ent (elimBelow st1 col).A r j * c j =
          ∑ j ∈ Finset.range 8, ent st1.A r j * c j := by
        refine Finset.sum_congr rfl fun j hj => ?_
        rw [ent_elimBelow_A st1 col r j hr8 (Finset.mem_range.mp hj), if_neg hcr]
      rw [this]
      exact hsol1 r hr8

/-- The pivot chosen for column `k` (after the partial-pivoting swap) is at
least the epsilon in magnitude, i.e. the elimination never takes the
near-singular skip branch. -/
def PivotOKAt (st0 : GEState) (k : ℕ) : Prop :=
  geEps ≤ |ent (swapGE (forwardUpTo st0 k) k
    (pivotSearch (forwardUpTo st0 k).A k)).A k k|

/-- Full pivoting: no forward column is skipped. -/
def NoSkip (st0 : GEState) : Prop := ∀ k, k < 8 → PivotOKAt st0 k

theorem forward_invariant (st0 : GEState) (hwf : GEWF st0) (c : ℕ → ℚ)
    (hsol : SolvedBy st0 c) (hns : NoSkip st0) :
    ∀ n, n ≤ 8 → ZerosBelow (forwardUpTo st0 n) n ∧
      SolvedBy (forwardUpTo st0 n) c
  | 0, _ => ⟨fun j _ hj _ _ => absurd hj (Nat.not_lt_zero j), hsol⟩
  | n + 1, h => by
    have prev := forward_invariant st0 hwf c hsol hns n (by omega)
    exact stepCol_invariant _ n (by omega) (forwardUpTo_wf st0 hwf n) c prev.1
      prev.2 (hns n (by omega))

/-- Rows strictly above the processed column are untouched by a forward
step. -/
theorem stepCol_row_frozen (st : GEState) (col r : ℕ) (hr : r < col)
    (hr8 : r < 8) (hcol8 : col < 8) (hwf : GEWF st) :
    (∀ cc, cc < 8 → ent (stepCol st col).A r cc = ent st.A r cc) ∧
      (stepCol st col).B.getD r 0 = st.B.getD r 0 := by
  obtain ⟨hm, hm8⟩ := pivotSearch_bounds st.A col hcol8
  have hcA : col < st.A.length := by rw [hwf.1]; exact hcol8
  have hmA : pivotSearch st.A col < st.A.length := by rw [hwf.1]; exact hm8
  have hcB : col < st.B.length := by rw [hwf.2]; exact hcol8
  have hmB : pivotSearch st.A col < st.B.length := by rw [hwf.2]; exact hm8
  unfold stepCol
  dsimp only
  split
  · constructor
    · intro cc _
      rw [ent_swapGE_A st col _ hcA hmA r cc, if_neg (by omega), if_neg (by omega)]
    · rw [getD_swapGE_B st col _ hcB hmB r, if_neg (by omega), if_neg (by omega)]
  · constructor
    · intro cc hcc
      rw [ent_elimBelow_A _ col r cc hr8 hcc, if_neg (by omega)]
      rw [ent_swapGE_A st col _ hcA hmA r cc, if_neg (by omega), if_neg (by omega)]
    · rw [getD_elimBelow_B _ col r hr8, if_neg (by omega)]
      rw [getD_swapGE_B st col _ hcB hmB r, if_neg (by omega), if_neg (by omega)]

theorem forwardUpTo_row_frozen (st0 : GEState) (hwf : GEWF st0) (i : ℕ)
    (hi : i < 8) :
    ∀ n, i < n → n ≤ 8 → ∀ cc, cc < 8 →
      ent (forwardUpTo st0 n).A i cc = ent (forwardUpTo st0 (i + 1)).A i cc := by
  intro n
  induction n with
  | zero => omega
  | succ n ih =>
    intro hin hn8 cc hcc
    by_cases hn : i = n
    · subst hn
      rfl
    · have h1 : ent (forwardUpTo st0 (n + 1)).A i cc =
          ent (forwardUpTo st0 n).A i cc :=
        (stepCol_row_frozen (forwardUpTo st0 n) n i (by omega) hi (by omega)
          (forwardUpTo_wf st0 hwf n)).1 cc hcc
      rw [h1]
      exact ih (by omega) (by omega) cc hcc

/-- The final diagonal entry of each row is the pivot chosen when that
row's column was processed. -/
theorem final_diag (st0 : GEState) (hwf : GEWF st0) (i : ℕ) (hi : i < 8) :
    ent (forwardUpTo st0 8).A i i =
      ent (swapGE (forwardUpTo st0 i) i
        (pivotSearch (forwardUpTo st0 i).A i)).A i i := by
  rw [forwardUpTo_row_frozen st0 hwf i hi 8 (by omega) (le_refl 8) i hi]
  show ent (stepCol (forwardUpTo st0 i) i).A i i = _
  unfold stepCol
  dsimp only
  split
  · rfl
  · rw [ent_elimBelow_A _ i i i hi hi, if_neg (lt_irrefl i)]

/-- Back substitution on a fully pivoted triangular system reconstructs the
solution vector: after `k` steps the coefficients of rows `8-k .. 7` agree
with the solution and the untouched ones are still zero. -/
theorem backSub_correct (st : GEState) (c : ℕ → ℚ) (hz : ZerosBelow st 8)
    (hsol : SolvedBy st c) (hdiag : ∀ i, i < 8 → geEps ≤ |ent st.A i i|) :
    ∀ k, k ≤ 8 → ∀ j, j < 8 →
      (backSubUpTo st k).getD j 0 = if 8 - k ≤ j then c j else 0 := by
  intro k
  induction k with
  | zero =>
    intro _ j hj
    rw [if_neg (by omega)]
    show (List.replicate 8 (0:ℚ)).getD j 0 = 0
    interval_cases j <;> rfl
  | succ k ih =>
    intro hk8 j hj
    have hik : 7 - k < 8 := by omega
    have hdne : ent st.A (7 - k) (7 - k) ≠ 0 := by
      intro h0
      have := hdiag (7 - k) hik
      rw [h0, abs_zero] at this
      exact absurd this (not_le.mpr geEps_pos)
    have hlen : (backSubUpTo st k).length = 8 := backSubUpTo_length st k
    have hval : backSubUpTo st (k + 1) =
        (backSubUpTo st k).set (7 - k)
          ((st.B.getD (7 - k) 0 - ∑ jj ∈ Finset.Ico (7 - k + 1) 8,
            ent st.A (7 - k) jj * (backSubUpTo st k).getD jj 0) /
              ent st.A (7 - k) (7 - k)) := by
      show backSubStep st (backSubUpTo st k) (7 - k) = _
      unfold backSubStep
      dsimp only
      rw [if_neg (not_lt.mpr (hdiag (7 - k) hik))]
    rw [hval]
    by_cases hji : j = 7 - k
    · subst hji
      have hge0 : 8 - (k + 1) ≤ 7 - k := by omega
      rw [lset_getD_eq _ _ _ _ (by rw [hlen]; omega), if_pos hge0]
      have hico : ∑ jj ∈ Finset.Ico (7 - k + 1) 8,
          ent st.A (7 - k) jj * (backSubUpTo st k).getD jj 0 =
          ∑ jj ∈ Finset.Ico (7 - k + 1) 8, ent st.A (7 - k) jj * c jj := by
        refine Finset.sum_congr rfl fun jj hjj => ?_
        obtain ⟨hjj1, hjj2⟩ := Finset.mem_Ico.mp hjj
        have hge1 : 8 - k ≤ jj := by omega
        rw [ih (by omega) jj hjj2, if_pos hge1]
      rw [hico]
      have hsplit : ∑ jj ∈ Finset.range 8, ent st.A (7 - k) jj * c jj =
          (∑ jj ∈ Finset.range (7 - k), ent st.A (7 - k) jj * c jj) +
            ent st.A (7 - k) (7 - k) * c (7 - k) +
            ∑ jj ∈ Finset.Ico (7 - k + 1) 8, ent st.A (7 - k) jj * c jj := by
        rw [← Finset.sum_range_add_sum_Ico
          (fun jj => ent st.A (7 - k) jj * c jj) (show 7 - k + 1 ≤ 8 by omega),
          Finset.sum_range_succ]
      have hzero : ∑ jj ∈ Finset.range (7 - k), ent st.A (7 - k) jj * c jj = 0 := by
        refine Finset.sum_eq_zero fun jj hjj => ?_
        have hjj2 := Finset.mem_range.mp hjj
        rw [hz jj (7 - k) (by omega) hjj2 hik, zero_mul]
      have hrow := hsol (7 - k) hik
      rw [hsplit, hzero, zero_add] at hrow
      rw [← hrow]
      field_simp
    · rw [lset_getD_ne _ _ _ _ _ (fun hh => hji hh.symm), ih (by omega) j hj]
      by_cases hge : 8 - (k + 1) ≤ j
      · have hge2 : 8 - k ≤ j := by omega
        rw [if_pos hge, if_pos hge2]
      · have hlt2 : ¬ 8 - k ≤ j := by omega
        rw [if_neg hge, if_neg hlt2]

theorem length_eq_four {α : Type*} {l : List α} :
    l.length = 4 ↔ ∃ a b c d, l = [a, b, c, d] := by
  constructor
  · intro h
    match l, h with
    | [a, b, c, d], _ => exact ⟨a, b, c, d, rfl⟩
  · rintro ⟨a, b, c, d, rfl⟩
    rfl

theorem initGE_solved (x1 y1 x2 y2 x3 y3 x4 y4 : ℚ) :
    SolvedBy (initGE [(x1, y1), (x2, y2), (x3, y3), (x4, y4)]
      [(x1, y1), (x2, y2), (x3, y3), (x4, y4)]) eVec := by
  intro r hr
  interval_cases r
  all_goals simp [initGE, mkRows, ent, eVec, Finset.sum_range_succ]

/-- Full pivoting on an identity correspondence forces the solver to
return exactly the identity homography coefficients. -/
theorem solver_identity_of_noSkip (src : List (ℚ × ℚ)) (h4 : src.length = 4)
    (hns : NoSkip (initGE src src)) :
    find_perspective_coeffs src src = [1, 0, 0, 0, 1, 0, 0, 0] := by
  obtain ⟨p1, p2, p3, p4, rfl⟩ := length_eq_four.mp h4
  obtain ⟨x1, y1⟩ := p1
  obtain ⟨x2, y2⟩ := p2
  obtain ⟨x3, y3⟩ := p3
  obtain ⟨x4, y4⟩ := p4
  have hwf : GEWF (initGE [(x1, y1), (x2, y2), (x3, y3), (x4, y4)]
      [(x1, y1), (x2, y2), (x3, y3), (x4, y4)]) := ⟨rfl, rfl⟩
  have hsol := initGE_solved x1 y1 x2 y2 x3 y3 x4 y4
  have hfin := forward_invariant _ hwf eVec hsol hns 8 (le_refl 8)
  have hdiag : ∀ i, i < 8 →
      geEps ≤ |ent (forwardUpTo (initGE [(x1, y1), (x2, y2), (x3, y3), (x4, y4)]
        [(x1, y1), (x2, y2), (x3, y3), (x4, y4)]) 8).A i i| := by
    intro i hi
    rw [final_diag _ hwf i hi]
    exact hns i hi
  have hcoef := backSub_correct _ eVec hfin.1 hfin.2 hdiag 8 (le_refl 8)
  unfold find_perspective_coeffs
  apply List.ext_getElem
  · rw [backSubUpTo_length]
    rfl
  · intro j hj1 hj2
    have hj8 : j < 8 := by
      rw [backSubUpTo_length] at hj1
      exact hj1
    have hval := hcoef j hj8
    rw [List.getD_eq_getElem?_getD, List.getElem?_eq_getElem hj1,
      Option.getD_some, if_pos (by omega)] at hval
    rw [hval]
    interval_cases j <;> simp [eVec]

theorem perspMap_identity (x y : ℚ) :
    perspMap [1, 0, 0, 0, 1, 0, 0, 0] x y = (x, y) := by
  unfold perspMap
  norm_num

theorem transformPersp_identity (img : Image) (sample : Image → ℚ → ℚ → RGB)
    (hs : ∀ im, ∀ x y : ℕ, x < im.width → y < im.height →
      sample im (x : ℚ) (y : ℚ) = im.pix x y)
    (fill : RGB) (x y : ℕ) (hx : x < img.width) (hy : y < img.height) :
    (transformPersp img [1, 0, 0, 0, 1, 0, 0, 0] sample fill).pix x y =
      img.pix x y := by
  unfold transformPersp
  dsimp only
  rw [perspMap_identity]
  rw [if_pos]
  · exact hs img x y hx hy
  · refine ⟨by positivity, ?_, by positivity, ?_⟩
    · have : (x : ℚ) + 1 ≤ (img.width : ℚ) := by exact_mod_cast hx
      linarith
    · have : (y : ℚ) + 1 ≤ (img.height : ℚ) := by exact_mod_cast hy
      linarith

/-- Claim C3, amended: for every four-point correspondence with
`src == dst` on which the elimination takes no near-singular skip (full
pivoting, true in particular of the rectangle-corner correspondences the
warp uses), the solver returns exactly the identity coefficients
`[1, 0, 0, 0, 1, 0, 0, 0]`, and warping any image with the returned
coefficients using any resampling kernel that is exact on integer grid
points (as the library's bicubic kernel is) preserves the dimensions and
every in-bounds pixel. -/
theorem C3_solver_identity_amended (src : List (ℚ × ℚ)) (h4 : src.length = 4)
    (hns : NoSkip (initGE src src)) (sample : Image → ℚ → ℚ → RGB)
    (hs : ∀ im, ∀ x y : ℕ, x < im.width → y < im.height →
      sample im (x : ℚ) (y : ℚ) = im.pix x y)
    (img : Image) (fill : RGB) :
    find_perspective_coeffs src src = [1, 0, 0, 0, 1, 0, 0, 0] ∧
      (transformPersp img (find_perspective_coeffs src src) sample fill).width =
        img.width ∧
      (transformPersp img (find_perspective_coeffs src src) sample fill).height =
        img.height ∧
      ∀ x y : ℕ, x < img.width → y < img.height →
        (transformPersp img (find_perspective_coeffs src src) sample fill).pix x y =
          img.pix x y := by
  have hid := solver_identity_of_noSkip src h4 hns
  rw [hid]
  exact ⟨rfl, rfl, rfl, fun x y hx hy =>
    transformPersp_identity img sample hs fill x y hx hy⟩

/-! ### Concrete evaluations of the solver

The states below follow the elimination on two concrete identity
correspondences: the unit-rectangle corners scaled by two (full pivoting,
used by the witness) and four coincident points (degenerate, used by the
counterexample). -/

/-- The rectangle-corner identity correspondence of a 2x2 page. -/
def srcW : List (ℚ × ℚ) := [(0, 0), (2, 0), (2, 2), (0, 2)]

/-- The fully degenerate correspondence: four coincident points. -/
def zeroCorr : List (ℚ × ℚ) := [(0, 0), (0, 0), (0, 0), (0, 0)]

theorem srcW_state0 : initGE srcW srcW = GEState.mk
    [[0,0,1,0,0,0,0,0],[0,0,0,0,0,1,0,0],[2,0,1,0,0,0,-4,0],[0,0,0,2,0,1,0,0],[2,2,1,0,0,0,-4,-4],[0,0,0,2,2,1,-4,-4],[0,2,1,0,0,0,0,0],[0,0,0,0,2,1,0,-4]]
    [0,0,2,0,2,2,0,2] := by
  norm_num [srcW, initGE, mkRows, GEState.mk.injEq]

theorem srcW_state1 :
    forwardUpTo (initGE srcW srcW) 1 = GEState.mk
    [[2,0,1,0,0,0,-4,0],[0,0,0,0,0,1,0,0],[0,0,1,0,0,0,0,0],[0,0,0,2,0,1,0,0],[0,2,0,0,0,0,0,-4],[0,0,0,2,2,1,-4,-4],[0,2,1,0,0,0,0,0],[0,0,0,0,2,1,0,-4]]
    [2,0,0,0,0,2,0,2] := by
  show stepCol (forwardUpTo (initGE srcW srcW) 0) 0 = _
  rw [show forwardUpTo (initGE srcW srcW) 0 = initGE srcW srcW from rfl, srcW_state0]
  norm_num [stepCol, swapGE, pivotSearch, elimBelow, elimRowA, ent, geEps,
    List.range', List.range_succ, GEState.mk.injEq]

theorem srcW_state2 :
    forwardUpTo (initGE srcW srcW) 2 = GEState.mk
    [[2,0,1,0,0,0,-4,0],[0,2,0,0,0,0,0,-4],[0,0,1,0,0,0,0,0],[0,0,0,2,0,1,0,0],[0,0,0,0,0,1,0,0],[0,0,0,2,2,1,-4,-4],[0,0,1,0,0,0,0,4],[0,0,0,0,2,1,0,-4]]
    [2,0,0,0,0,2,0,2] := by
  show stepCol (forwardUpTo (initGE srcW srcW) 1) 1 = _
  rw [srcW_state1]
  norm_num [stepCol, swapGE, pivotSearch, elimBelow, elimRowA, ent, geEps,
    List.range', List.range_succ, GEState.mk.injEq]

theorem srcW_state3 :
    forwardUpTo (initGE srcW srcW) 3 = GEState.mk
    [[2,0,1,0,0,0,-4,0],[0,2,0,0,0,0,0,-4],[0,0,1,0,0,0,0,0],[0,0,0,2,0,1,0,0],[0,0,0,0,0,1,0,0],[0,0,0,2,2,1,-4,-4],[0,0,0,0,0,0,0,4],[0,0,0,0,2,1,0,-4]]
    [2,0,0,0,0,2,0,2] := by
  show stepCol (forwardUpTo (initGE srcW srcW) 2) 2 = _
  rw [srcW_state2]
  norm_num [stepCol, swapGE, pivotSearch, elimBelow, elimRowA, ent, geEps,
    List.range', List.range_succ, GEState.mk.injEq]

theorem srcW_state4 :
    forwardUpTo (initGE srcW srcW) 4 = GEState.mk
    [[2,0,1,0,0,0,-4,0],[0,2,0,0,0,0,0,-4],[0,0,1,0,0,0,0,0],[0,0,0,2,0,1,0,0],[0,0,0,0,0,1,0,0],[0,0,0,0,2,0,-4,-4],[0,0,0,0,0,0,0,4],[0,0,0,0,2,1,0,-4]]
    [2,0,0,0,0,2,0,2] := by
  show stepCol (forwardUpTo (initGE srcW srcW) 3) 3 = _
  rw [srcW_state3]
  norm_num [stepCol, swapGE, pivotSearch, elimBelow, elimRowA, ent, geEps,
    List.range', List.range_succ, GEState.mk.injEq]

theorem srcW_state5 :
    forwardUpTo (initGE srcW srcW) 5 = GEState.mk
    [[2,0,1,0,0,0,-4,0],[0,2,0,0,0,0,0,-4],[0,0,1,0,0,0,0,0],[0,0,0,2,0,1,0,0],[0,0,0,0,2,0,-4,-4],[0,0,0,0,0,1,0,0],[0,0,0,0,0,0,0,4],[0,0,0,0,0,1,4,0]]
    [2,0,0,0,2,0,0,0] := by
  show stepCol (forwardUpTo (initGE srcW srcW) 4) 4 = _
  rw [srcW_state4]
  norm_num [stepCol, swapGE, pivotSearch, elimBelow, elimRowA, ent, geEps,
    List.range', List.range_succ, GEState.mk.injEq]

theorem srcW_state6 :
    forwardUpTo (initGE srcW srcW) 6 = GEState.mk
    [[2,0,1,0,0,0,-4,0],[0,2,0,0,0,0,0,-4],[0,0,1,0,0,0,0,0],[0,0,0,2,0,1,0,0],[0,0,0,0,2,0,-4,-4],[0,0,0,0,0,1,0,0],[0,0,0,0,0,0,0,4],[0,0,0,0,0,0,4,0]]
    [2,0,0,0,2,0,0,0] := by
  show stepCol (forwardUpTo (initGE srcW srcW) 5) 5 = _
  rw [srcW_state5]
  norm_num [stepCol, swapGE, pivotSearch, elimBelow, elimRowA, ent, geEps,
    List.range', List.range_succ, GEState.mk.injEq]

theorem srcW_state7 :
    forwardUpTo (initGE srcW srcW) 7 = GEState.mk
    [[2,0,1,0,0,0,-4,0],[0,2,0,0,0,0,0,-4],[0,0,1,0,0,0,0,0],[0,0,0,2,0,1,0,0],[0,0,0,0,2,0,-4,-4],[0,0,0,0,0,1,0,0],[0,0,0,0,0,0,4,0],[0,0,0,0,0,0,0,4]]
    [2,0,0,0,2,0,0,0] := by
  show stepCol (forwardUpTo (initGE srcW srcW) 6) 6 = _
  rw [srcW_state6]
  norm_num [stepCol, swapGE, pivotSearch, elimBelow, elimRowA, ent, geEps,
    List.range', List.range_succ, GEState.mk.injEq]

theorem srcW_state8 :
    forwardUpTo (initGE srcW srcW) 8 = GEState.mk
    [[2,0,1,0,0,0,-4,0],[0,2,0,0,0,0,0,-4],[0,0,1,0,0,0,0,0],[0,0,0,2,0,1,0,0],[0,0,0,0,2,0,-4,-4],[0,0,0,0,0,1,0,0],[0,0,0,0,0,0,4,0],[0,0,0,0,0,0,0,4]]
    [2,0,0,0,2,0,0,0] := by
  show stepCol (forwardUpTo (initGE srcW srcW) 7) 7 = _
  rw [srcW_state7]
  norm_num [stepCol, swapGE, pivotSearch, elimBelow, elimRowA, ent, geEps,
    List.range', List.range_succ, GEState.mk.injEq]

theorem noSkipW : NoSkip (initGE srcW srcW) := by
  intro k hk
  unfold PivotOKAt
  interval_cases k
  · rw [show forwardUpTo (initGE srcW srcW) 0 = initGE srcW srcW from rfl, srcW_state0]
    norm_num [swapGE, pivotSearch, ent, geEps, List.range']
  · rw [srcW_state1]
    norm_num [swapGE, pivotSearch, ent, geEps, List.range']
  · rw [srcW_state2]
    norm_num [swapGE, pivotSearch, ent, geEps, List.range']
  · rw [srcW_state3]
    norm_num [swapGE, pivotSearch, ent, geEps, List.range']
  · rw [srcW_state4]
    norm_num [swapGE, pivotSearch, ent, geEps, List.range']
  · rw [srcW_state5]
    norm_num [swapGE, pivotSearch, ent, geEps, List.range']
  · rw [srcW_state6]
    norm_num [swapGE, pivotSearch, ent, geEps, List.range']
  · rw [srcW_state7]
    norm_num [swapGE, pivotSearch, ent, geEps, List.range']

theorem zeroC_state0 : initGE zeroCorr zeroCorr = GEState.mk
    [[0,0,1,0,0,0,0,0],[0,0,0,0,0,1,0,0],[0,0,1,0,0,0,0,0],[0,0,0,0,0,1,0,0],[0,0,1,0,0,0,0,0],[0,0,0,0,0,1,0,0],[0,0,1,0,0,0,0,0],[0,0,0,0,0,1,0,0]]
    [0,0,0,0,0,0,0,0] := by
  norm_num [zeroCorr, initGE, mkRows, GEState.mk.injEq]

theorem zeroC_state1 :
    forwardUpTo (initGE zeroCorr zeroCorr) 1 = GEState.mk
    [[0,0,1,0,0,0,0,0],[0,0,0,0,0,1,0,0],[0,0,1,0,0,0,0,0],[0,0,0,0,0,1,0,0],[0,0,1,0,0,0,0,0],[0,0,0,0,0,1,0,0],[0,0,1,0,0,0,0,0],[0,0,0,0,0,1,0,0]]
    [0,0,0,0,0,0,0,0] := by
  show stepCol (forwardUpTo (initGE zeroCorr zeroCorr) 0) 0 = _
  rw [show forwardUpTo (initGE zeroCorr zeroCorr) 0 = initGE zeroCorr zeroCorr from rfl, zeroC_state0]
  norm_num [stepCol, swapGE, pivotSearch, elimBelow, elimRowA, ent, geEps,
    List.range', List.range_succ, GEState.mk.injEq]

theorem zeroC_state2 :
    forwardUpTo (initGE zeroCorr zeroCorr) 2 = GEState.mk
    [[0,0,1,0,0,0,0,0],[0,0,0,0,0,1,0,0],[0,0,1,0,0,0,0,0],[0,0,0,0,0,1,0,0],[0,0,1,0,0,0,0,0],[0,0,0,0,0,1,0,0],[0,0,1,0,0,0,0,0],[0,0,0,0,0,1,0,0]]
    [0,0,0,0,0,0,0,0] := by
  show stepCol (forwardUpTo (initGE zeroCorr zeroCorr) 1) 1 = _
  rw [zeroC_state1]
  norm_num [stepCol, swapGE, pivotSearch, elimBelow, elimRowA, ent, geEps,
    List.range', List.range_succ, GEState.mk.injEq]

theorem zeroC_state3 :
    forwardUpTo (initGE zeroCorr zeroCorr) 3 = GEState.mk
    [[0,0,1,0,0,0,0,0],[0,0,0,0,0,1,0,0],[0,0,1,0,0,0,0,0],[0,0,0,0,0,1,0,0],[0,0,0,0,0,0,0,0],[0,0,0,0,0,1,0,0],[0,0,0,0,0,0,0,0],[0,0,0,0,0,1,0,0]]
    [0,0,0,0,0,0,0,0] := by
  show stepCol (forwardUpTo (initGE zeroCorr zeroCorr) 2) 2 = _
  rw [zeroC_state2]
  norm_num [stepCol, swapGE, pivotSearch, elimBelow, elimRowA, ent, geEps,
    List.range', List.range_succ, GEState.mk.injEq]

theorem zeroC_state4 :
    forwardUpTo (initGE zeroCorr zeroCorr) 4 = GEState.mk
    [[0,0,1,0,0,0,0,0],[0,0,0,0,0,1,0,0],[0,0,1,0,0,0,0,0],[0,0,0,0,0,1,0,0],[0,0,0,0,0,0,0,0],[0,0,0,0,0,1,0,0],[0,0,0,0,0,0,0,0],[0,0,0,0,0,1,0,0]]
    [0,0,0,0,0,0,0,0] := by
  show stepCol (forwardUpTo (initGE zeroCorr zeroCorr) 3) 3 = _
  rw [zeroC_state3]
  norm_num [stepCol, swapGE, pivotSearch, elimBelow, elimRowA, ent, geEps,
    List.range', List.range_succ, GEState.mk.injEq]

theorem zeroC_state5 :
    forwardUpTo (initGE zeroCorr zeroCorr) 5 = GEState.mk
    [[0,0,1,0,0,0,0,0],[0,0,0,0,0,1,0,0],[0,0,1,0,0,0,0,0],[0,0,0,0,0,1,0,0],[0,0,0,0,0,0,0,0],[0,0,0,0,0,1,0,0],[0,0,0,0,0,0,0,0],[0,0,0,0,0,1,0,0]]
    [0,0,0,0,0,0,0,0] := by
  show stepCol (forwardUpTo (initGE zeroCorr zeroCorr) 4) 4 = _
  rw [zeroC_state4]
  norm_num [stepCol, swapGE, pivotSearch, elimBelow, elimRowA, ent, geEps,
    List.range', List.range_succ, GEState.mk.injEq]

theorem zeroC_state6 :
    forwardUpTo (initGE zeroCorr zeroCorr) 6 = GEState.mk
    [[0,0,1,0,0,0,0,0],[0,0,0,0,0,1,0,0],[0,0,1,0,0,0,0,0],[0,0,0,0,0,1,0,0],[0,0,0,0,0,0,0,0],[0,0,0,0,0,1,0,0],[0,0,0,0,0,0,0,0],[0,0,0,0,0,0,0,0]]
    [0,0,0,0,0,0,0,0] := by
  show stepCol (forwardUpTo (initGE zeroCorr zeroCorr) 5) 5 = _
  rw [zeroC_state5]
  norm_num [stepCol, swapGE, pivotSearch, elimBelow, elimRowA, ent, geEps,
    List.range', List.range_succ, GEState.mk.injEq]

theorem zeroC_state7 :
    forwardUpTo (initGE zeroCorr zeroCorr) 7 = GEState.mk
    [[0,0,1,0,0,0,0,0],[0,0,0,0,0,1,0,0],[0,0,1,0,0,0,0,0],[0,0,0,0,0,1,0,0],[0,0,0,0,0,0,0,0],[0,0,0,0,0,1,0,0],[0,0,0,0,0,0,0,0],[0,0,0,0,0,0,0,0]]
    [0,0,0,0,0,0,0,0] := by
  show stepCol (forwardUpTo (initGE zeroCorr zeroCorr) 6) 6 = _
  rw [zeroC_state6]
  norm_num [stepCol, swapGE, pivotSearch, elimBelow, elimRowA, ent, geEps,
    List.range', List.range_succ, GEState.mk.injEq]

theorem zeroC_state8 :
    forwardUpTo (initGE zeroCorr zeroCorr) 8 = GEState.mk
    [[0,0,1,0,0,0,0,0],[0,0,0,0,0,1,0,0],[0,0,1,0,0,0,0,0],[0,0,0,0,0,1,0,0],[0,0,0,0,0,0,0,0],[0,0,0,0,0,1,0,0],[0,0,0,0,0,0,0,0],[0,0,0,0,0,0,0,0]]
    [0,0,0,0,0,0,0,0] := by
  show stepCol (forwardUpTo (initGE zeroCorr zeroCorr) 7) 7 = _
  rw [zeroC_state7]
  norm_num [stepCol, swapGE, pivotSearch, elimBelow, elimRowA, ent, geEps,
    List.range', List.range_succ, GEState.mk.injEq]

theorem zeroC_back1 :
    backSubUpTo (GEState.mk [[0,0,1,0,0,0,0,0],[0,0,0,0,0,1,0,0],[0,0,1,0,0,0,0,0],[0,0,0,0,0,1,0,0],[0,0,0,0,0,0,0,0],[0,0,0,0,0,1,0,0],[0,0,0,0,0,0,0,0],[0,0,0,0,0,0,0,0]] [0,0,0,0,0,0,0,0]) 1 = [0,0,0,0,0,0,0,0] := by
  show backSubStep (GEState.mk [[0,0,1,0,0,0,0,0],[0,0,0,0,0,1,0,0],[0,0,1,0,0,0,0,0],[0,0,0,0,0,1,0,0],[0,0,0,0,0,0,0,0],[0,0,0,0,0,1,0,0],[0,0,0,0,0,0,0,0],[0,0,0,0,0,0,0,0]] [0,0,0,0,0,0,0,0]) (backSubUpTo (GEState.mk [[0,0,1,0,0,0,0,0],[0,0,0,0,0,1,0,0],[0,0,1,0,0,0,0,0],[0,0,0,0,0,1,0,0],[0,0,0,0,0,0,0,0],[0,0,0,0,0,1,0,0],[0,0,0,0,0,0,0,0],[0,0,0,0,0,0,0,0]] [0,0,0,0,0,0,0,0]) 0) 7 = _
  rw [show backSubUpTo (GEState.mk [[0,0,1,0,0,0,0,0],[0,0,0,0,0,1,0,0],[0,0,1,0,0,0,0,0],[0,0,0,0,0,1,0,0],[0,0,0,0,0,0,0,0],[0,0,0,0,0,1,0,0],[0,0,0,0,0,0,0,0],[0,0,0,0,0,0,0,0]] [0,0,0,0,0,0,0,0]) 0 = [0,0,0,0,0,0,0,0] from rfl]
  norm_num [backSubStep, ent, geEps, Finset.sum_Ico_eq_sum_range,
    Finset.sum_range_succ]

theorem zeroC_back2 :
    backSubUpTo (GEState.mk [[0,0,1,0,0,0,0,0],[0,0,0,0,0,1,0,0],[0,0,1,0,0,0,0,0],[0,0,0,0,0,1,0,0],[0,0,0,0,0,0,0,0],[0,0,0,0,0,1,0,0],[0,0,0,0,0,0,0,0],[0,0,0,0,0,0,0,0]] [0,0,0,0,0,0,0,0]) 2 = [0,0,0,0,0,0,0,0] := by
  show backSubStep (GEState.mk [[0,0,1,0,0,0,0,0],[0,0,0,0,0,1,0,0],[0,0,1,0,0,0,0,0],[0,0,0,0,0,1,0,0],[0,0,0,0,0,0,0,0],[0,0,0,0,0,1,0,0],[0,0,0,0,0,0,0,0],[0,0,0,0,0,0,0,0]] [0,0,0,0,0,0,0,0]) (backSubUpTo (GEState.mk [[0,0,1,0,0,0,0,0],[0,0,0,0,0,1,0,0],[0,0,1,0,0,0,0,0],[0,0,0,0,0,1,0,0],[0,0,0,0,0,0,0,0],[0,0,0,0,0,1,0,0],[0,0,0,0,0,0,0,0],[0,0,0,0,0,0,0,0]] [0,0,0,0,0,0,0,0]) 1) 6 = _
  rw [zeroC_back1]
  norm_num [backSubStep, ent, geEps, Finset.sum_Ico_eq_sum_range,
    Finset.sum_range_succ]

theorem zeroC_back3 :
    backSubUpTo (GEState.mk [[0,0,1,0,0,0,0,0],[0,0,0,0,0,1,0,0],[0,0,1,0,0,0,0,0],[0,0,0,0,0,1,0,0],[0,0,0,0,0,0,0,0],[0,0,0,0,0,1,0,0],[0,0,0,0,0,0,0,0],[0,0,0,0,0,0,0,0]] [0,0,0,0,0,0,0,0]) 3 = [0,0,0,0,0,0,0,0] := by
  show backSubStep (GEState.mk [[0,0,1,0,0,0,0,0],[0,0,0,0,0,1,0,0],[0,0,1,0,0,0,0,0],[0,0,0,0,0,1,0,0],[0,0,0,0,0,0,0,0],[0,0,0,0,0,1,0,0],[0,0,0,0,0,0,0,0],[0,0,0,0,0,0,0,0]] [0,0,0,0,0,0,0,0]) (backSubUpTo (GEState.mk [[0,0,1,0,0,0,0,0],[0,0,0,0,0,1,0,0],[0,0,1,0,0,0,0,0],[0,0,0,0,0,1,0,0],[0,0,0,0,0,0,0,0],[0,0,0,0,0,1,0,0],[0,0,0,0,0,0,0,0],[0,0,0,0,0,0,0,0]] [0,0,0,0,0,0,0,0]) 2) 5 = _
  rw [zeroC_back2]
  norm_num [backSubStep, ent, geEps, Finset.sum_Ico_eq_sum_range,
    Finset.sum_range_succ]

theorem zeroC_back4 :
    backSubUpTo (GEState.mk [[0,0,1,0,0,0,0,0],[0,0,0,0,0,1,0,0],[0,0,1,0,0,0,0,0],[0,0,0,0,0,1,0,0],[0,0,0,0,0,0,0,0],[0,0,0,0,0,1,0,0],[0,0,0,0,0,0,0,0],[0,0,0,0,0,0,0,0]] [0,0,0,0,0,0,0,0]) 4 = [0,0,0,0,0,0,0,0] := by
  show backSubStep (GEState.mk [[0,0,1,0,0,0,0,0],[0,0,0,0,0,1,0,0],[0,0,1,0,0,0,0,0],[0,0,0,0,0,1,0,0],[0,0,0,0,0,0,0,0],[0,0,0,0,0,1,0,0],[0,0,0,0,0,0,0,0],[0,0,0,0,0,0,0,0]] [0,0,0,0,0,0,0,0]) (backSubUpTo (GEState.mk [[0,0,1,0,0,0,0,0],[0,0,0,0,0,1,0,0],[0,0,1,0,0,0,0,0],[0,0,0,0,0,1,0,0],[0,0,0,0,0,0,0,0],[0,0,0,0,0,1,0,0],[0,0,0,0,0,0,0,0],[0,0,0,0,0,0,0,0]] [0,0,0,0,0,0,0,0]) 3) 4 = _
  rw [zeroC_back3]
  norm_num [backSubStep, ent, geEps, Finset.sum_Ico_eq_sum_range,
    Finset.sum_range_succ]

theorem zeroC_back5 :
    backSubUpTo (GEState.mk [[0,0,1,0,0,0,0,0],[0,0,0,0,0,1,0,0],[0,0,1,0,0,0,0,0],[0,0,0,0,0,1,0,0],[0,0,0,0,0,0,0,0],[0,0,0,0,0,1,0,0],[0,0,0,0,0,0,0,0],[0,0,0,0,0,0,0,0]] [0,0,0,0,0,0,0,0]) 5 = [0,0,0,0,0,0,0,0] := by
  show backSubStep (GEState.mk [[0,0,1,0,0,0,0,0],[0,0,0,0,0,1,0,0],[0,0,1,0,0,0,0,0],[0,0,0,0,0,1,0,0],[0,0,0,0,0,0,0,0],[0,0,0,0,0,1,0,0],[0,0,0,0,0,0,0,0],[0,0,0,0,0,0,0,0]] [0,0,0,0,0,0,0,0]) (backSubUpTo (GEState.mk [[0,0,1,0,0,0,0,0],[0,0,0,0,0,1,0,0],[0,0,1,0,0,0,0,0],[0,0,0,0,0,1,0,0],[0,0,0,0,0,0,0,0],[0,0,0,0,0,1,0,0],[0,0,0,0,0,0,0,0],[0,0,0,0,0,0,0,0]] [0,0,0,0,0,0,0,0]) 4) 3 = _
  rw [zeroC_back4]
  norm_num [backSubStep, ent, geEps, Finset.sum_Ico_eq_sum_range,
    Finset.sum_range_succ]

theorem zeroC_back6 :
    backSubUpTo (GEState.mk [[0,0,1,0,0,0,0,0],[0,0,0,0,0,1,0,0],[0,0,1,0,0,0,0,0],[0,0,0,0,0,1,0,0],[0,0,0,0,0,0,0,0],[0,0,0,0,0,1,0,0],[0,0,0,0,0,0,0,0],[0,0,0,0,0,0,0,0]] [0,0,0,0,0,0,0,0]) 6 = [0,0,0,0,0,0,0,0] := by
  show backSubStep (GEState.mk [[0,0,1,0,0,0,0,0],[0,0,0,0,0,1,0,0],[0,0,1,0,0,0,0,0],[0,0,0,0,0,1,0,0],[0,0,0,0,0,0,0,0],[0,0,0,0,0,1,0,0],[0,0,0,0,0,0,0,0],[0,0,0,0,0,0,0,0]] [0,0,0,0,0,0,0,0]) (backSubUpTo (GEState.mk [[0,0,1,0,0,0,0,0],[0,0,0,0,0,1,0,0],[0,0,1,0,0,0,0,0],[0,0,0,0,0,1,0,0],[0,0,0,0,0,0,0,0],[0,0,0,0,0,1,0,0],[0,0,0,0,0,0,0,0],[0,0,0,0,0,0,0,0]] [0,0,0,0,0,0,0,0]) 5) 2 = _
  rw [zeroC_back5]
  norm_num [backSubStep, ent, geEps, Finset.sum_Ico_eq_sum_range,
    Finset.sum_range_succ]

theorem zeroC_back7 :
    backSubUpTo (GEState.mk [[0,0,1,0,0,0,0,0],[0,0,0,0,0,1,0,0],[0,0,1,0,0,0,0,0],[0,0,0,0,0,1,0,0],[0,0,0,0,0,0,0,0],[0,0,0,0,0,1,0,0],[0,0,0,0,0,0,0,0],[0,0,0,0,0,0,0,0]] [0,0,0,0,0,0,0,0]) 7 = [0,0,0,0,0,0,0,0] := by
  show backSubStep (GEState.mk [[0,0,1,0,0,0,0,0],[0,0,0,0,0,1,0,0],[0,0,1,0,0,0,0,0],[0,0,0,0,0,1,0,0],[0,0,0,0,0,0,0,0],[0,0,0,0,0,1,0,0],[0,0,0,0,0,0,0,0],[0,0,0,0,0,0,0,0]] [0,0,0,0,0,0,0,0]) (backSubUpTo (GEState.mk [[0,0,1,0,0,0,0,0],[0,0,0,0,0,1,0,0],[0,0,1,0,0,0,0,0],[0,0,0,0,0,1,0,0],[0,0,0,0,0,0,0,0],[0,0,0,0,0,1,0,0],[0,0,0,0,0,0,0,0],[0,0,0,0,0,0,0,0]] [0,0,0,0,0,0,0,0]) 6) 1 = _
  rw [zeroC_back6]
  norm_num [backSubStep, ent, geEps, Finset.sum_Ico_eq_sum_range,
    Finset.sum_range_succ]

theorem zeroC_back8 :
    backSubUpTo (GEState.mk [[0,0,1,0,0,0,0,0],[0,0,0,0,0,1,0,0],[0,0,1,0,0,0,0,0],[0,0,0,0,0,1,0,0],[0,0,0,0,0,0,0,0],[0,0,0,0,0,1,0,0],[0,0,0,0,0,0,0,0],[0,0,0,0,0,0,0,0]] [0,0,0,0,0,0,0,0]) 8 = [0,0,0,0,0,0,0,0] := by
  show backSubStep (GEState.mk [[0,0,1,0,0,0,0,0],[0,0,0,0,0,1,0,0],[0,0,1,0,0,0,0,0],[0,0,0,0,0,1,0,0],[0,0,0,0,0,0,0,0],[0,0,0,0,0,1,0,0],[0,0,0,0,0,0,0,0],[0,0,0,0,0,0,0,0]] [0,0,0,0,0,0,0,0]) (backSubUpTo (GEState.mk [[0,0,1,0,0,0,0,0],[0,0,0,0,0,1,0,0],[0,0,1,0,0,0,0,0],[0,0,0,0,0,1,0,0],[0,0,0,0,0,0,0,0],[0,0,0,0,0,1,0,0],[0,0,0,0,0,0,0,0],[0,0,0,0,0,0,0,0]] [0,0,0,0,0,0,0,0]) 7) 0 = _
  rw [zeroC_back7]
  norm_num [backSubStep, ent, geEps, Finset.sum_Ico_eq_sum_range,
    Finset.sum_range_succ]

theorem zeroC_coeffs :
    find_perspective_coeffs zeroCorr zeroCorr = [0, 0, 0, 0, 0, 0, 0, 0] := by
  unfold find_perspective_coeffs
  rw [zeroC_state8]
  exact zeroC_back8

/-- The floor-based witness kernel is exact on integer grid points. -/
theorem sample0_grid : ∀ im : Image, ∀ x y : ℕ, x < im.width → y < im.height →
    sample0 im (x : ℚ) (y : ℚ) = im.pix x y := by
  intro im x y _ _
  unfold sample0
  rw [Int.floor_natCast, Int.floor_natCast, Int.toNat_natCast, Int.toNat_natCast]

/-- Witness for the amended C3 at the 2x2 rectangle correspondence, the
floor kernel and a concrete image. -/
theorem C3_solver_identity_amended_witness :
    srcW.length = 4 ∧ NoSkip (initGE srcW srcW) ∧
      (find_perspective_coeffs srcW srcW = [1, 0, 0, 0, 1, 0, 0, 0] ∧
        (transformPersp gray8 (find_perspective_coeffs srcW srcW) sample0 white).width =
          gray8.width ∧
        (transformPersp gray8 (find_perspective_coeffs srcW srcW) sample0 white).height =
          gray8.height ∧
        ∀ x y : ℕ, x < gray8.width → y < gray8.height →
          (transformPersp gray8 (find_perspective_coeffs srcW srcW) sample0 white).pix x y =
            gray8.pix x y) :=
  ⟨rfl, noSkipW,
    C3_solver_identity_amended srcW rfl noSkipW sample0 sample0_grid gray8 white⟩

/-- Counterexample to C3 as stated: on the degenerate identity
correspondence of four coincident points the solver returns the all-zero
coefficient vector, not the identity coefficients. -/
theorem C3_solver_degenerate_counterexample :
    find_perspective_coeffs zeroCorr zeroCorr ≠ [1, 0, 0, 0, 1, 0, 0, 0] := by
  rw [zeroC_coeffs]
  simp

end DistortScan
